import Mathlib

namespace MomV1

/-! Shallow embedding of the deterministic text algorithms of the
ai-service repository (services/clean.py, services/diarization.py,
services/extraction.py, services/summarization.py).  Strings are
modelled as `List Char`; each concrete regex substitution from the
sources is implemented as an executable list transformer. -/

/-- Whitespace characters, the set matched by the \s class of the source
regexes on the ASCII range. -/
def isSpaceCh (c : Char) : Bool :=
  c = ' ' || c = '\t' || c = '\n' || c = '\r' || c = '\x0b' || c = '\x0c'

/-- ASCII digit test, the \d class of the source regexes. -/
def isDigitCh (c : Char) : Bool := decide ('0' ≤ c) && decide (c ≤ '9')

/-- ASCII uppercase test, the [A-Z] class of the source regexes. -/
def isUpperCh (c : Char) : Bool := decide ('A' ≤ c) && decide (c ≤ 'Z')

/-- ASCII lowercase test, the [a-z] class of the source regexes. -/
def isLowerCh (c : Char) : Bool := decide ('a' ≤ c) && decide (c ≤ 'z')

/-- ASCII letter test. -/
def isAlphaCh (c : Char) : Bool := isUpperCh c || isLowerCh c

/-- Word characters, the \w class and the basis of \b boundaries: ASCII
alphanumerics, underscore, and non-ASCII codepoints (the sources compile
their patterns with Unicode semantics, under which the non-ASCII
characters appearing in this repository's data are letters). -/
def isWordCh (c : Char) : Bool :=
  isAlphaCh c || isDigitCh c || c = '_' || decide (128 ≤ c.toNat)

/-- ASCII lowercasing, as performed by the IGNORECASE comparisons of the
sources on the ASCII range. -/
def lowerCh (c : Char) : Char := c.toLower

/-- ASCII uppercasing. -/
def upperCh (c : Char) : Char := c.toUpper

/-- Lowercase a whole string, modelling the str.lower() calls of the sources. -/
def lowerL (l : List Char) : List Char := l.map lowerCh

/-- Strip whitespace from both ends, modelling str.strip(). -/
def stripL (l : List Char) : List Char :=
  ((l.dropWhile isSpaceCh).reverse.dropWhile isSpaceCh).reverse

/-- One pass of re.sub(\s+, single space): runs of whitespace collapse to
one space character. -/
def collapseWsAux : Bool → List Char → List Char
  | _, [] => []
  | prevSp, c :: cs =>
    if isSpaceCh c then
      if prevSp then collapseWsAux true cs else ' ' :: collapseWsAux true cs
    else c :: collapseWsAux false cs

/-- Collapse whitespace runs to single spaces. -/
def collapseWs (l : List Char) : List Char := collapseWsAux false l

/-- Delete every whitespace character (used to state the
"equal up to whitespace" comparisons of the spec). -/
def removeWsL (l : List Char) : List Char := l.filter (fun c => !isSpaceCh c)

/-- Case-sensitive list prefix test. -/
def isPrefixL : List Char → List Char → Bool
  | [], _ => true
  | _ :: _, [] => false
  | p :: ps, c :: cs => p = c && isPrefixL ps cs

/-- Case-sensitive substring test, modelling the Python `in` operator on
strings. -/
def containsSubL (pat : List Char) : List Char → Bool
  | [] => isPrefixL pat []
  | c :: cs => isPrefixL pat (c :: cs) || containsSubL pat cs

/-- Case-insensitive prefix stripping: if `pat` matches the front of `s`
ignoring ASCII case, return the rest of `s`. -/
def stripPrefixCIAux : List Char → List Char → Option (List Char)
  | [], s => some s
  | _ :: _, [] => none
  | p :: ps, c :: cs => if lowerCh c = lowerCh p then stripPrefixCIAux ps cs else none

/-- Case-insensitive prefix stripping for the nonempty patterns used by
the sources; the empty pattern never matches. -/
def stripPrefixCI (pat s : List Char) : Option (List Char) :=
  match pat with
  | [] => none
  | _ :: _ => stripPrefixCIAux pat s

/-- Word-character status of the last character of a pattern. -/
def patLastW (pat : List Char) : Bool := isWordCh (pat.getLastD ' ')

/-- Both \b conditions of a pattern of the form \b pat \b at a position:
the word-character status changes between the previous character and the
first matched character, and between the last matched character and the
following one (a string edge counts as a non-word side). -/
def wordBoundaryOk (pat : List Char) (prevW : Bool) (c : Char) (rest : List Char) : Bool :=
  (prevW != isWordCh c) &&
    (match rest with
     | [] => patLastW pat
     | r :: _ => patLastW pat != isWordCh r)

/-- Whether \b pat \b matches (case-insensitively) exactly at the start of
`s`, given the word-character status of the preceding character. -/
def wholeWordAt (pat : List Char) (prevW : Bool) (s : List Char) : Bool :=
  match s, stripPrefixCI pat s with
  | c :: _, some rest => wordBoundaryOk pat prevW c rest
  | _, _ => false

/-- Whether \b pat \b matches case-insensitively anywhere in the string.
This is the specification-level "occurs as a whole word" predicate. -/
def existsWholeWordCI (pat : List Char) : Bool → List Char → Bool
  | _, [] => false
  | prevW, c :: cs => wholeWordAt pat prevW (c :: cs) || existsWholeWordCI pat (isWordCh c) cs

/-- Fueled implementation of re.sub(\b pat \b, empty string) with
IGNORECASE: scan left to right, delete each whole-word match and continue
after it.  Fuel bounds the recursion; `s.length` fuel always suffices
because every step consumes at least one character. -/
def subWordFuel (pat : List Char) : Nat → Bool → List Char → List Char
  | 0, _, s => s
  | _ + 1, _, [] => []
  | fuel + 1, prevW, c :: cs =>
    match stripPrefixCI pat (c :: cs) with
    | some rest =>
      if wordBoundaryOk pat prevW c rest then subWordFuel pat fuel (patLastW pat) rest
      else c :: subWordFuel pat fuel (isWordCh c) cs
    | none => c :: subWordFuel pat fuel (isWordCh c) cs

/-- Delete every whole-word, case-insensitive occurrence of `pat`,
modelling one filler-word substitution of _clean_with_patterns. -/
def subWordCI (pat : List Char) (s : List Char) : List Char :=
  subWordFuel pat s.length false s

/-- The filler_words list of services/clean.py, in source order. -/
def fillerWords : List (List Char) :=
  ["uh".data, "um".data, "ah".data, "eh".data, "er".data, "hmm".data, "oh".data,
   "you know".data, "i mean".data, "kind of".data, "sort of".data, "like actually".data,
   "ừ".data, "ờ".data, "à".data, "ạ".data, "nhé".data, "nhá".data]

/-- The filler-removal loop of _clean_with_patterns: one whole-word
substitution per filler, in list order. -/
def removeFillers (s : List Char) : List Char :=
  fillerWords.foldl (fun t pat => subWordCI pat t) s

/-- One pass of re.sub(\s* x \s*, "x "): every occurrence of the
punctuation character `x`, with any surrounding whitespace, becomes the
character followed by exactly one space.  The boolean records that the
previous emitted token was such a replacement (whose trailing \s* swallows
following whitespace); the list buffers a pending whitespace run that may
yet belong to a later match. -/
def subPunctGo (x : Char) : Bool → List Char → List Char → List Char
  | afterX, pending, [] => if afterX then [] else pending.reverse
  | afterX, pending, c :: cs =>
    if c = x then x :: ' ' :: subPunctGo x true [] cs
    else if isSpaceCh c then
      if afterX then subPunctGo x true [] cs
      else subPunctGo x false (c :: pending) cs
    else
      (if afterX then [] else pending.reverse) ++ c :: subPunctGo x false [] cs

/-- Normalize spacing around one punctuation character. -/
def subPunct (x : Char) (l : List Char) : List Char := subPunctGo x false [] l

/-- The sentence-terminal punctuation characters of the sources. -/
def isTermPunct (c : Char) : Bool := c = '.' || c = '!' || c = '?'

/-- One pass of re.sub(\s+([.!?]), captured punctuation): drop whitespace
runs that immediately precede sentence-terminal punctuation. -/
def rmSpBeforeGo : List Char → List Char → List Char
  | pending, [] => pending.reverse
  | pending, c :: cs =>
    if isSpaceCh c then rmSpBeforeGo (c :: pending) cs
    else if isTermPunct c then c :: rmSpBeforeGo [] cs
    else pending.reverse ++ c :: rmSpBeforeGo [] cs

/-- Drop whitespace before sentence-terminal punctuation. -/
def rmSpBefore (l : List Char) : List Char := rmSpBeforeGo [] l

/-- Python str.capitalize(): first character uppercased, the rest
lowercased. -/
def pyCapitalize : List Char → List Char
  | [] => []
  | c :: cs => upperCh c :: cs.map lowerCh

/-- The per-part treatment of the capitalization loop: a blank part is
kept verbatim, any other part is stripped and capitalized. -/
def flushPart (part : List Char) : List Char :=
  if stripL part = [] then part else pyCapitalize (stripL part)

/-- The capitalization step of _clean_with_patterns: re.split on
([.!?])\s+ keeps the punctuation as separator parts, every even part is
stripped and capitalized, and the parts are joined back without the
whitespace the separator consumed.  The boolean is true while skipping the
whitespace consumed by a separator match.  Fuel bounds the recursion;
every step consumes at least one character, so fuel equal to the length
of the remaining input always suffices. -/
def capJoinFuel : Nat → Bool → List Char → List Char → List Char
  | 0, _, acc, _ => flushPart acc
  | _ + 1, _, acc, [] => flushPart acc
  | fuel + 1, skip, acc, c :: cs =>
    if skip && isSpaceCh c then capJoinFuel fuel true acc cs
    else if isTermPunct c then
      match cs with
      | c2 :: cs2 =>
        if isSpaceCh c2 then flushPart acc ++ c :: capJoinFuel fuel true [] cs2
        else capJoinFuel fuel false (acc ++ [c]) (c2 :: cs2)
      | [] => flushPart (acc ++ [c])
    else capJoinFuel fuel false (acc ++ [c]) cs

/-- Split on sentence-terminal punctuation followed by whitespace,
capitalize the sentence parts, and rejoin. -/
def capJoin (l : List Char) : List Char := capJoinFuel l.length false [] l

/-- The final step of _clean_with_patterns: append a period when the
nonempty result does not already end in sentence-terminal punctuation. -/
def appendDot (l : List Char) : List Char :=
  if l = [] then [] else if isTermPunct (l.getLastD ' ') then l else l ++ ['.']

/-- The _clean_with_patterns function of services/clean.py: empty input is
returned unchanged; otherwise whitespace is collapsed and stripped, filler
words are removed, spacing around the six punctuation characters is
normalized in source order, whitespace is collapsed again, whitespace
before sentence-terminal punctuation is dropped, sentences are capitalized,
whitespace is collapsed and stripped once more, and a terminal period is
ensured. -/
def cleanPatternsL (s : List Char) : List Char :=
  if s = [] then []
  else
    let t1 := stripL (collapseWs s)
    let t2 := removeFillers t1
    let t3 := subPunct '!' (subPunct '?' (subPunct ':' (subPunct ';' (subPunct ',' (subPunct '.' t2)))))
    let t4 := collapseWs t3
    let t5 := rmSpBefore t4
    let t6 := capJoin t5
    let t7 := stripL (collapseWs t6)
    appendDot t7

/-- String-level wrapper for _clean_with_patterns. -/
def cleanPatterns (s : String) : String := ⟨cleanPatternsL s.data⟩

/-! Provider gateway: _generate_with_llm of services/clean.py (the same
function appears verbatim in services/diarization.py and
services/summarization.py).  The OpenAI and Gemini SDK calls are external
collaborators; they are modelled as oracle outcomes, and the repository's
own classification and fallback logic is embedded. -/

/-- Python exception kinds the gateway code distinguishes with isinstance
checks. -/
inductive ExcKind
  | runtimeError
  | valueError
  | apiError
  | authenticationError
  | permissionDeniedError
  | otherError
deriving DecidableEq

/-- A raised Python exception, reduced to the data the gateway inspects:
its kind and its str() message. -/
structure PyExc where
  kind : ExcKind
  msg : List Char
deriving DecidableEq

/-- Result of one backend call: returned text or a raised exception. -/
inductive GenOutcome
  | ok (text : List Char)
  | exc (e : PyExc)
deriving DecidableEq

/-- The message keywords whose presence in the lowercased error string
classifies an OpenAI failure as an auth/quota error. -/
def authKeywords : List (List Char) :=
  ["api key".data, "authentication".data, "invalid".data, "expired".data,
   "unauthorized".data, "permission denied".data, "insufficient_quota".data,
   "quota".data]

/-- The is_auth_error classification of _generate_with_llm: instance
checks for the two auth exception types, the keyword scan, and the
401/403/429 status-code substrings. -/
def isAuthError (e : PyExc) : Bool :=
  e.kind = ExcKind.authenticationError || e.kind = ExcKind.permissionDeniedError ||
    authKeywords.any (fun k => containsSubL k (lowerL e.msg)) ||
    containsSubL "401".data (lowerL e.msg) ||
    containsSubL "403".data (lowerL e.msg) ||
    containsSubL "429".data (lowerL e.msg)

/-- The _generate_with_llm gateway: when OpenAI is importable and
configured, call it; on an auth/quota-classified failure or a missing-key
ValueError fall back to Gemini once; on an APIError fall back to Gemini
and wrap a Gemini failure; on any other failure re-raise without calling
Gemini.  Without OpenAI, call Gemini directly and wrap its failures.  The
first component counts the calls made to the Gemini backend. -/
def generateWithLlm (openaiConfigured : Bool) (openaiResult : GenOutcome)
    (geminiResult : GenOutcome) : Nat × GenOutcome :=
  if openaiConfigured then
    match openaiResult with
    | .ok s => (0, .ok s)
    | .exc e =>
      if isAuthError e then (1, geminiResult)
      else if e.kind = ExcKind.valueError &&
          containsSubL "Missing OPENAI_API_KEY".data e.msg then (1, geminiResult)
      else if e.kind = ExcKind.apiError then
        match geminiResult with
        | .ok s => (1, .ok s)
        | .exc _ =>
          (1, .exc ⟨ExcKind.runtimeError,
            "Both OpenAI API and Gemini failed. Please check your setup.".data⟩)
      else (0, .exc e)
  else
    match geminiResult with
    | .ok s => (1, .ok s)
    | .exc g => (1, .exc ⟨ExcKind.runtimeError, "Gemini API failed: ".data ++ g.msg⟩)

/-! Pattern diarizer: _diarize_with_patterns of services/diarization.py.
Each regex of the speaker_patterns table is embedded as a dedicated
matcher over character lists; re.search is the leftmost scan over
positions. -/

/-- Consume a literal case-insensitively, returning the consumed original
characters and the rest. -/
def mLitCI : List Char → List Char → Option (List Char × List Char)
  | [], s => some ([], s)
  | _ :: _, [] => none
  | p :: ps, c :: cs =>
    if lowerCh c = lowerCh p then
      match mLitCI ps cs with
      | some (con, rest) => some (c :: con, rest)
      | none => none
    else none

/-- Greedy star over a character class: consumed characters and rest. -/
def mTakeWhile (p : Char → Bool) : List Char → List Char × List Char
  | [] => ([], [])
  | c :: cs =>
    if p c then
      match mTakeWhile p cs with
      | (con, rest) => (c :: con, rest)
    else ([], c :: cs)

/-- Greedy plus over a character class: fails on zero matches. -/
def mTakeWhile1 (p : Char → Bool) (s : List Char) : Option (List Char × List Char) :=
  match s with
  | [] => none
  | c :: cs =>
    if p c then
      match mTakeWhile p cs with
      | (con, rest) => some (c :: con, rest)
    else none

/-- Consume a literal exactly (case-sensitively), returning the rest. -/
def dropExact : List Char → List Char → Option (List Char)
  | [], s => some s
  | _ :: _, [] => none
  | p :: ps, c :: cs => if c = p then dropExact ps cs else none

/-- Matcher for the "LIT\s*\d+" speaker patterns (Speaker N, Person N)
and, with `allowSp = false`, for "P\d+" and "S\d+"; returns the matched
span. -/
def mLitSpacesDigits (lit : List Char) (allowSp : Bool) (s : List Char) :
    Option (List Char) :=
  match mLitCI lit s with
  | none => none
  | some (c1, r1) =>
    match (if allowSp then mTakeWhile isSpaceCh r1 else ([], r1)) with
    | (c2, r2) =>
      match mTakeWhile1 isDigitCh r2 with
      | none => none
      | some (c3, _) => some (c1 ++ c2 ++ c3)

/-- Matcher for the Vietnamese numbered-speaker pattern
"Người\s+nói\s*\d+". -/
def mNguoiNoi (s : List Char) : Option (List Char) :=
  match mLitCI "Người".data s with
  | none => none
  | some (c1, r1) =>
    match mTakeWhile1 isSpaceCh r1 with
    | none => none
    | some (c2, r2) =>
      match mLitCI "nói".data r2 with
      | none => none
      | some (c3, r3) =>
        match mTakeWhile isSpaceCh r3 with
        | (c4, r4) =>
          match mTakeWhile1 isDigitCh r4 with
          | none => none
          | some (c5, _) => some (c1 ++ c2 ++ c3 ++ c4 ++ c5)

/-- Optional literal period, as in the "Mr\.?" patterns. -/
def mOptDot : List Char → List Char × List Char
  | '.' :: cs => (['.'], cs)
  | s => ([], s)

/-- Matcher for the titled-name patterns "LIT\.?\s+[A-Z][a-z]+" (with
`optDot`) and "LIT\s+[A-Z][a-z]+" (without).  Under IGNORECASE the
classes [A-Z] and [a-z] each match any ASCII letter. -/
def mTitleName (lit : List Char) (optDot : Bool) (s : List Char) :
    Option (List Char) :=
  match mLitCI lit s with
  | none => none
  | some (c1, r1) =>
    match (if optDot then mOptDot r1 else ([], r1)) with
    | (c2, r2) =>
      match mTakeWhile1 isSpaceCh r2 with
      | none => none
      | some (c3, r3) =>
        match r3 with
        | c :: cs =>
          if isAlphaCh c then
            match mTakeWhile1 isAlphaCh cs with
            | none => none
            | some (c4, _) => some (c1 ++ c2 ++ c3 ++ (c :: c4))
          else none
        | [] => none

/-- Matcher for a bare case-insensitive literal token pattern. -/
def mTok (lit : List Char) (s : List Char) : Option (List Char) :=
  match mLitCI lit s with
  | none => none
  | some (c1, _) => some c1

/-- Matcher for "Manager[s]?": the optional plural is taken greedily. -/
def mManagers (s : List Char) : Option (List Char) :=
  match mLitCI "Manager".data s with
  | none => none
  | some (c1, r1) =>
    match r1 with
    | c :: _ => if lowerCh c = 's' then some (c1 ++ [c]) else some c1
    | [] => some c1

/-- re.search for a span matcher: try every position left to right and
return the first matched span. -/
def searchSpan (m : List Char → Option (List Char)) : List Char → Option (List Char)
  | [] => m []
  | c :: cs =>
    match m (c :: cs) with
    | some sp => some sp
    | none => searchSpan m cs

/-- The speaker_patterns table of _diarize_with_patterns, in source
order. -/
def speakerMatchers : List (List Char → Option (List Char)) :=
  [mLitSpacesDigits "Speaker".data true,
   mNguoiNoi,
   mLitSpacesDigits "Person".data true,
   mLitSpacesDigits "P".data false,
   mLitSpacesDigits "S".data false,
   mTitleName "Mr".data true,
   mTitleName "Ms".data true,
   mTitleName "Mrs".data true,
   mTitleName "Dr".data true,
   mTitleName "Anh".data false,
   mTitleName "Chị".data false,
   mTitleName "Ông".data false,
   mTitleName "Bà".data false,
   mTok "HR".data,
   mTok "Finance".data,
   mTok "IT".data,
   mManagers,
   mTok "Team Lead".data,
   mTok "Director".data]

/-- First-match-wins scan of the pattern table over one line. -/
def findSpeakerIn : List (List Char → Option (List Char)) → List Char → Option (List Char)
  | [], _ => none
  | m :: rest, line =>
    match searchSpan m line with
    | some sp => some sp
    | none => findSpeakerIn rest line

/-- The per-line speaker search of _diarize_with_patterns. -/
def findSpeaker (line : List Char) : Option (List Char) :=
  findSpeakerIn speakerMatchers line

/-- First anchored substitution stripping "label:" with trailing
whitespace from the front of a matched line. -/
def stripLabelColon (sf l : List Char) : List Char :=
  match dropExact sf l with
  | some r =>
    match r with
    | ':' :: r2 => (mTakeWhile isSpaceCh r2).2
    | _ => l
  | none => l

/-- Second anchored substitution stripping a bare "label" with trailing
whitespace from the front. -/
def stripLabelBare (sf l : List Char) : List Char :=
  match dropExact sf l with
  | some r => (mTakeWhile isSpaceCh r).2
  | none => l

/-- Both label-stripping substitutions of _diarize_with_patterns, applied
in source order. -/
def stripLabel (sf l : List Char) : List Char := stripLabelBare sf (stripLabelColon sf l)

/-- The sentinel speaker label of the per-line pass. -/
def unknownSp : List Char := "Unknown".data

/-- re.sub(\.([A-Z]), period space capture): insert a space between a
period and an immediately following uppercase letter. -/
def dotSpace : List Char → List Char
  | [] => []
  | '.' :: c :: cs =>
    if isUpperCh c then '.' :: ' ' :: c :: dotSpace cs else '.' :: dotSpace (c :: cs)
  | c :: cs => c :: dotSpace cs

/-- Python str.split on a single separator character. -/
def splitOnCh (x : Char) : List Char → List (List Char)
  | [] => [[]]
  | c :: cs =>
    if c = x then [] :: splitOnCh x cs
    else
      match splitOnCh x cs with
      | [] => [[c]]
      | p :: ps => (c :: p) :: ps

/-- The sentence list used by the fallback passes: split on periods,
strip, and keep the nonblank pieces. -/
def sentencesDot (t : List Char) : List (List Char) :=
  ((splitOnCh '.' t).map stripL).filter (fun s => decide (s ≠ []))

/-- The per-line accumulation loop of _diarize_with_patterns: an open
segment is flushed when a new speaker line is found or at the end of
input, and only when its stripped text is nonempty. -/
def lineLoopGo : List (List Char) → List Char → List Char →
    List (List Char × List Char) → List (List Char × List Char)
  | [], curSp, curTx, acc =>
    if stripL curTx ≠ [] then acc ++ [(curSp, stripL curTx)] else acc
  | line :: rest, curSp, curTx, acc =>
    let l := stripL line
    if l = [] then lineLoopGo rest curSp curTx acc
    else
      match findSpeaker l with
      | some sf =>
        let acc2 := if stripL curTx ≠ [] then acc ++ [(curSp, stripL curTx)] else acc
        lineLoopGo rest sf (stripLabel sf l) acc2
      | none =>
        lineLoopGo rest curSp (if curTx ≠ [] then curTx ++ ' ' :: l else l) acc

/-- The department/role alternation of the sentence-level speaker-change
patterns (these are case-sensitive: the second pass compiles its patterns
without IGNORECASE). -/
def roleAlt : List (List Char) :=
  ["HR".data, "Finance".data, "IT".data, "Engineering".data, "Marketing".data,
   "Sales".data, "Legal".data, "Management".data]

/-- Keyword test of the first and third speaker-change patterns: with
nothing after the keyword group, the alternation
(will|needs?|must|should|to|is) reduces to a prefix test. -/
def kwAfterRole (s : List Char) : Bool :=
  isPrefixL "will".data s || isPrefixL "need".data s || isPrefixL "must".data s ||
    isPrefixL "should".data s || isPrefixL "to".data s || isPrefixL "is".data s

/-- Literal keyword followed by at least one whitespace character. -/
def litThenSpace (lit : List Char) (s : List Char) : Bool :=
  match dropExact lit s with
  | some r =>
    match r with
    | c :: _ => isSpaceCh c
    | [] => false
  | none => false

/-- Keyword test of the second speaker-change pattern, whose alternation
(will|needs?|must|should|to) is followed by \s+. -/
def kwThenSpace2 (s : List Char) : Bool :=
  litThenSpace "will".data s || litThenSpace "needs".data s ||
    litThenSpace "need".data s || litThenSpace "must".data s ||
    litThenSpace "should".data s || litThenSpace "to".data s

/-- First alternative (in listed order) for which the matcher succeeds,
modelling regex alternation at a fixed position. -/
def firstSome {α β : Type} (f : α → Option β) : List α → Option β
  | [] => none
  | x :: xs =>
    match f x with
    | some y => some y
    | none => firstSome f xs

/-- Role token, whitespace, keyword: the body shared by the first
(anchored) and third (searched) speaker-change pattern. -/
def matchRoleKw (s : List Char) : Option (List Char) :=
  firstSome
    (fun alt =>
      match dropExact alt s with
      | some r =>
        match mTakeWhile1 isSpaceCh r with
        | some (_, r2) => if kwAfterRole r2 then some alt else none
        | none => none
      | none => none)
    roleAlt

/-- Capitalized name, whitespace, keyword, whitespace: the body of the
second (anchored) speaker-change pattern; returns the captured name. -/
def matchNameKw (s : List Char) : Option (List Char) :=
  match s with
  | c :: cs =>
    if isUpperCh c then
      match mTakeWhile1 isLowerCh cs with
      | some (low, r1) =>
        match mTakeWhile1 isSpaceCh r1 with
        | some (_, r2) => if kwThenSpace2 r2 then some (c :: low) else none
        | none => none
      | none => none
    else none
  | [] => none

/-- The action-verb alternation of the fourth speaker-change pattern. -/
def verbAlt : List (List Char) :=
  ["draft".data, "finalize".data, "prepare".data, "coordinate".data, "review".data,
   "implement".data, "deploy".data, "complete".data, "launch".data]

/-- Keyword test of the fourth speaker-change pattern: one of
(will|to|must|should), whitespace, then an action-verb prefix. -/
def kwThenVerb (s : List Char) : Bool :=
  [("will".data), ("to".data), ("must".data), ("should".data)].any
    (fun lit =>
      match dropExact lit s with
      | some r =>
        match mTakeWhile1 isSpaceCh r with
        | some (_, r2) => verbAlt.any (fun v => isPrefixL v r2)
        | none => false
      | none => false)

/-- Capitalized name, whitespace, keyword, whitespace, action verb: the
body of the fourth speaker-change pattern. -/
def matchNameKwVerb (s : List Char) : Option (List Char) :=
  match s with
  | c :: cs =>
    if isUpperCh c then
      match mTakeWhile1 isLowerCh cs with
      | some (low, r1) =>
        match mTakeWhile1 isSpaceCh r1 with
        | some (_, r2) => if kwThenVerb r2 then some (c :: low) else none
        | none => none
      | none => none
    else none
  | [] => none

/-- re.search with a \b lookbehind: scan positions left to right tracking
the word-character status of the previous character, and run the matcher
only where a boundary falls. -/
def searchBW (m : List Char → Option (List Char)) : Bool → List Char → Option (List Char)
  | _, [] => none
  | prevW, c :: cs =>
    match (if prevW != isWordCh c then m (c :: cs) else none) with
    | some g => some g
    | none => searchBW m (isWordCh c) cs

/-- The stoplist filtering spurious speaker-change captures. -/
def smartStop : List (List Char) :=
  ["decided".data, "agreed".data, "needs".data, "must".data, "should".data, "will".data]

/-- Reject a capture whose lowercased text is in the stoplist. -/
def screenSmart (r : Option (List Char)) : Option (List Char) :=
  match r with
  | some g => if smartStop.any (fun x => decide (x = lowerL g)) then none else some g
  | none => none

/-- The per-sentence speaker detection of the fallback pass: the four
speaker-change patterns tried in source order, a stoplisted capture
falling through to the next pattern. -/
def detectSmart (s : List Char) : Option (List Char) :=
  match screenSmart (matchRoleKw s) with
  | some g => some g
  | none =>
    match screenSmart (matchNameKw s) with
    | some g => some g
    | none =>
      match screenSmart (searchBW matchRoleKw false s) with
      | some g => some g
      | none => screenSmart (searchBW matchNameKwVerb false s)

/-- The sentence-grouping loop of the fallback pass: a detected speaker
different from the current one flushes the open segment; other sentences
are appended with ". ". -/
def smartLoopGo : List (List Char) → Option (List Char) → List Char →
    List (List Char × List Char) → List (List Char × List Char)
  | [], curSp, curTx, acc =>
    if stripL curTx ≠ [] then acc ++ [(curSp.getD unknownSp, stripL curTx)] else acc
  | snt :: rest, curSp, curTx, acc =>
    if snt = [] then smartLoopGo rest curSp curTx acc
    else
      let det := detectSmart snt
      if det.isSome && decide (det ≠ curSp) then
        let acc2 := if stripL curTx ≠ [] then acc ++ [(curSp.getD unknownSp, stripL curTx)] else acc
        smartLoopGo rest det snt acc2
      else
        smartLoopGo rest curSp (if curTx ≠ [] then curTx ++ '.' :: ' ' :: snt else snt) acc

/-- Decimal digit character. -/
def digitCh (n : Nat) : Char :=
  if n = 0 then '0' else if n = 1 then '1' else if n = 2 then '2'
  else if n = 3 then '3' else if n = 4 then '4' else if n = 5 then '5'
  else if n = 6 then '6' else if n = 7 then '7' else if n = 8 then '8' else '9'

/-- Decimal rendering of a natural number (fueled). -/
def natToCharsAux : Nat → Nat → List Char → List Char
  | 0, _, acc => acc
  | fuel + 1, n, acc =>
    if n < 10 then digitCh n :: acc
    else natToCharsAux fuel (n / 10) (digitCh (n % 10) :: acc)

/-- Decimal rendering of a natural number. -/
def natToChars (n : Nat) : List Char := natToCharsAux (n + 1) n []

/-- Python ". ".join over a list of sentence strings. -/
def joinDotSp : List (List Char) → List Char
  | [] => []
  | [x] => x
  | x :: y :: rest => x ++ '.' :: ' ' :: joinDotSp (y :: rest)

/-- The chunking fallback: groups of `k` sentences labeled "Speaker n" in
order.  Fuel is the sentence count; each step consumes at least one
sentence since `k` is at least 3. -/
def chunkGo (k : Nat) : Nat → Nat → List (List Char) → List (List Char × List Char)
  | _, 0, _ => []
  | n, fuel + 1, rest =>
    match rest with
    | [] => []
    | _ :: _ =>
      ("Speaker ".data ++ natToChars (n + 1), joinDotSp (rest.take k)) ::
        chunkGo k (n + 1) fuel (rest.drop k)

/-- The _diarize_with_patterns function of services/diarization.py:
period-capital spacing, the per-line labeled pass, and on no or a single
resulting segment the sentence-level speaker-change pass, the chunking
pass for more than five sentences, and finally the whole text as one
"Meeting Transcript" segment. -/
def diarizeWithPatterns (t : List Char) : List (List Char × List Char) :=
  if t = [] then []
  else
    let tx := dotSpace t
    let segs := lineLoopGo (splitOnCh '\n' tx) unknownSp [] []
    if segs.length = 0 || segs.length = 1 then
      let smart := smartLoopGo (sentencesDot tx) none [] []
      let smart2 :=
        if (smart.filter (fun sg => decide (sg.1 ≠ unknownSp))).length > 1 then
          smart.filter (fun sg => decide (sg.1 ≠ unknownSp))
        else smart
      if smart2.length > 1 then smart2
      else
        let sents2 := sentencesDot tx
        if sents2.length > 5 then chunkGo (max 3 (sents2.length / 5)) 0 sents2.length sents2
        else [("Meeting Transcript".data, tx)]
    else segs

/-! JSON values and parsing.  json.loads is Python standard library, an
external collaborator of the repository code; it is embedded here as an
executable recursive-descent parser over the JSON subset the services
exchange (null, booleans, numbers kept as lexemes, strings with the
common escapes, arrays, objects). -/

/-- Opening curly brace character. -/
def lbrace : Char := Char.ofNat 123

/-- Closing curly brace character. -/
def rbrace : Char := Char.ofNat 125

/-- A parsed JSON value; number lexemes are kept verbatim. -/
inductive Json
  | null
  | jbool (b : Bool)
  | jnum (raw : List Char)
  | jstr (s : List Char)
  | jarr (elems : List Json)
  | jobj (fields : List (List Char × Json))

/-- Whitespace skipped between JSON tokens. -/
def isJsonWs (c : Char) : Bool := c = ' ' || c = '\t' || c = '\n' || c = '\r'

/-- Parse the body of a JSON string after its opening quote. -/
def parseJStrBody : Nat → List Char → Option (List Char × List Char)
  | 0, _ => none
  | fuel + 1, s =>
    match s with
    | [] => none
    | '"' :: r => some ([], r)
    | '\\' :: e :: r =>
      let dec : Option Char :=
        if e = '"' then some '"' else if e = '\\' then some '\\'
        else if e = '/' then some '/' else if e = 'n' then some '\n'
        else if e = 't' then some '\t' else if e = 'r' then some '\r'
        else if e = 'b' then some '\x08' else if e = 'f' then some '\x0c'
        else none
      match dec with
      | some d =>
        match parseJStrBody fuel r with
        | some (str, rest) => some (d :: str, rest)
        | none => none
      | none => none
    | c :: r =>
      match parseJStrBody fuel r with
      | some (str, rest) => some (c :: str, rest)
      | none => none

/-- Parse a JSON number lexeme: optional minus, digits, optional
fraction, optional exponent. -/
def parseJNum (s : List Char) : Option (List Char × List Char) :=
  let (neg, s1) := match s with
    | '-' :: r => (['-'], r)
    | _ => (([] : List Char), s)
  match mTakeWhile1 isDigitCh s1 with
  | none => none
  | some (intPart, s2) =>
    let (fracPart, s3) :=
      match s2 with
      | '.' :: r =>
        match mTakeWhile1 isDigitCh r with
        | some (ds, r2) => ('.' :: ds, r2)
        | none => (([] : List Char), s2)
      | _ => (([] : List Char), s2)
    let (expPart, s4) :=
      match s3 with
      | c :: r =>
        if c = 'e' || c = 'E' then
          let (sgn, r1) := match r with
            | '+' :: r2 => (['+'], r2)
            | '-' :: r2 => (['-'], r2)
            | _ => (([] : List Char), r)
          match mTakeWhile1 isDigitCh r1 with
          | some (ds, r2) => (c :: (sgn ++ ds), r2)
          | none => (([] : List Char), s3)
        else (([] : List Char), s3)
      | [] => (([] : List Char), s3)
    some (neg ++ intPart ++ fracPart ++ expPart, s4)

mutual

/-- Parse one JSON value from the front of the input. -/
def parseJVal : Nat → List Char → Option (Json × List Char)
  | 0, _ => none
  | fuel + 1, s =>
    match s.dropWhile isJsonWs with
    | [] => none
    | c :: cs =>
      if c = 'n' then
        match dropExact "ull".data cs with
        | some r => some (Json.null, r)
        | none => none
      else if c = 't' then
        match dropExact "rue".data cs with
        | some r => some (Json.jbool true, r)
        | none => none
      else if c = 'f' then
        match dropExact "alse".data cs with
        | some r => some (Json.jbool false, r)
        | none => none
      else if c = '"' then
        match parseJStrBody (cs.length + 1) cs with
        | some (str, r) => some (Json.jstr str, r)
        | none => none
      else if c = '[' then parseJArrTail fuel cs
      else if c = lbrace then parseJObjTail fuel cs
      else if c = '-' || isDigitCh c then
        match parseJNum (c :: cs) with
        | some (raw, r) => some (Json.jnum raw, r)
        | none => none
      else none

/-- Parse array elements after the opening bracket. -/
def parseJArrTail : Nat → List Char → Option (Json × List Char)
  | 0, _ => none
  | fuel + 1, s =>
    match s.dropWhile isJsonWs with
    | [] => none
    | c :: cs =>
      if c = ']' then some (Json.jarr [], cs)
      else
        match parseJVal fuel (c :: cs) with
        | some (v, r) => parseJArrSep fuel r [v]
        | none => none

/-- Parse the separator or terminator after an array element. -/
def parseJArrSep : Nat → List Char → List Json → Option (Json × List Char)
  | 0, _, _ => none
  | fuel + 1, s, acc =>
    match s.dropWhile isJsonWs with
    | [] => none
    | c :: cs =>
      if c = ']' then some (Json.jarr acc.reverse, cs)
      else if c = ',' then
        match parseJVal fuel cs with
        | some (v, r) => parseJArrSep fuel r (v :: acc)
        | none => none
      else none

/-- Parse object fields after the opening brace. -/
def parseJObjTail : Nat → List Char → Option (Json × List Char)
  | 0, _ => none
  | fuel + 1, s =>
    match s.dropWhile isJsonWs with
    | [] => none
    | c :: cs =>
      if c = rbrace then some (Json.jobj [], cs)
      else if c = '"' then
        match parseJStrBody (cs.length + 1) cs with
        | some (key, r) =>
          match r.dropWhile isJsonWs with
          | ':' :: r2 =>
            match parseJVal fuel r2 with
            | some (v, r3) => parseJObjSep fuel r3 [(key, v)]
            | none => none
          | _ => none
        | none => none
      else none

/-- Parse the separator or terminator after an object field. -/
def parseJObjSep : Nat → List Char → List (List Char × Json) →
    Option (Json × List Char)
  | 0, _, _ => none
  | fuel + 1, s, acc =>
    match s.dropWhile isJsonWs with
    | [] => none
    | c :: cs =>
      if c = rbrace then some (Json.jobj acc.reverse, cs)
      else if c = ',' then
        match s.dropWhile isJsonWs with
        | _ :: cs2 =>
          match cs2.dropWhile isJsonWs with
          | '"' :: cs3 =>
            match parseJStrBody (cs3.length + 1) cs3 with
            | some (key, r) =>
              match r.dropWhile isJsonWs with
              | ':' :: r2 =>
                match parseJVal fuel r2 with
                | some (v, r3) => parseJObjSep fuel r3 ((key, v) :: acc)
                | none => none
              | _ => none
            | none => none
          | _ => none
        | [] => none
      else none

end

/-- json.loads: parse a complete JSON document, requiring only trailing
whitespace after the value. -/
def jsonLoads (s : List Char) : Option Json :=
  match parseJVal (2 * s.length + 2) s with
  | some (v, rest) => if rest.dropWhile isJsonWs = [] then some v else none
  | none => none

/-- Field lookup in a parsed JSON object. -/
def jlookup (k : List Char) : Json → Option Json
  | Json.jobj fields =>
    fields.foldr (fun f found => if f.1 = k then some f.2 else found) none
  | _ => none

/-! The summarize task of services/summarization.py: the retry loop, the
markdown-fence and embedded-object cleanup, the truncation repair, and
the parse, over the generateWithLlm gateway. -/

/-- Suffix test. -/
def isSuffixL (pat l : List Char) : Bool := isPrefixL pat.reverse l.reverse

/-- Strip trailing whitespace, modelling str.rstrip(). -/
def rstripL (l : List Char) : List Char := (l.reverse.dropWhile isSpaceCh).reverse

/-- Count occurrences of a character. -/
def countCh (x : Char) (l : List Char) : Nat := (l.filter (fun c => c = x)).length

/-- Count non-overlapping occurrences of a substring, modelling
str.count. -/
def countSubFuel (pat : List Char) : Nat → List Char → Nat
  | 0, _ => 0
  | _ + 1, [] => 0
  | fuel + 1, c :: cs =>
    if isPrefixL pat (c :: cs) then 1 + countSubFuel pat fuel ((c :: cs).drop pat.length)
    else countSubFuel pat fuel cs

/-- Count non-overlapping occurrences of a nonempty substring. -/
def countSub (pat l : List Char) : Nat := countSubFuel pat l.length l

/-- Replace the last element of a list of lines. -/
def updateLast (f : List Char → List Char) : List (List Char) → List (List Char)
  | [] => []
  | [x] => [f x]
  | x :: y :: rest => x :: updateLast f (y :: rest)

/-- Join lines with newline characters. -/
def joinNl : List (List Char) → List Char
  | [] => []
  | [x] => x
  | x :: y :: rest => x ++ '\n' :: joinNl (y :: rest)

/-- The span matched by re.search of an "open brace, anything, close
brace" pattern with DOTALL: from the first opening brace to the last
closing brace after it. -/
def findDelimSpan (op cl : Char) (s : List Char) : Option (List Char) :=
  match s.dropWhile (fun c => decide (c ≠ op)) with
  | [] => none
  | c :: cs =>
    match (c :: cs).reverse.dropWhile (fun x => decide (x ≠ cl)) with
    | [] => none
    | r =>
      match r.reverse with
      | [] => none
      | [_] => none
      | span => some span

/-- The response cleanup of summarize: strip, drop a leading json code
fence, drop a leading bare fence, drop a trailing fence, strip again, and
narrow to an embedded JSON object span when one exists. -/
def sumCleanup (text : List Char) : List Char :=
  let c0 := stripL text
  let c1 := if isPrefixL "```json".data c0 then c0.drop 7 else c0
  let c2 := if isPrefixL "```".data c1 then c1.drop 3 else c1
  let c3 := if isSuffixL "```".data c2 then c2.take (c2.length - 3) else c2
  let c4 := stripL c3
  match findDelimSpan lbrace rbrace c4 with
  | some sp => sp
  | none => c4

/-- Whether a (right-stripped) response ends in a closing brace. -/
def endsInRBrace (l : List Char) : Bool := decide (l.getLastD ' ' = rbrace)

/-- The truncation repair of summarize on the final attempt: track quote
parity per line, close an open string on the last line, and append a
closing brace when the document has no closing brace after its first
character (the branch that truncates at the last brace assigns a variable
that the subsequent join overwrites, so it has no effect). -/
def repairTruncated (cleaned : List Char) : List Char :=
  let lines := splitOnCh '\n' cleaned
  let inStr := lines.foldl
    (fun b line =>
      if (countCh '"' line - countSub ('\\' :: '"' :: []) line) % 2 = 1 then !b else b)
    false
  let lines2 := if inStr then updateLast (fun ll => rstripL ll ++ ['"']) lines else lines
  let lines3 :=
    if endsInRBrace (rstripL (lines2.getLastD [])) then lines2
    else if containsSubL [rbrace] (cleaned.drop 1) then lines2
    else lines2 ++ [[rbrace]]
  joinNl lines3

/-- Abridged stand-in for the _SYSTEM_PROMPT literal of
services/summarization.py.  The prompt text flows opaquely into the
backend oracles and is never inspected by any control flow, so its exact
contents are immaterial to every theorem below. -/
def SYSTEM_PROMPT : List Char := "SYSTEM_PROMPT requesting structured meeting-minutes JSON".data

/-- The prompt built by summarize: the retry variant carries an extra
brevity instruction. -/
def sumPrompt (language : List Char) (sentences : List (List Char)) (attempt : Nat) :
    List Char :=
  if attempt > 0 then
    "Language: ".data ++ language ++ ". ".data
      ++ "IMPORTANT: Keep JSON response SHORT and CONCISE. ".data
      ++ "Limit main_content to 300 words maximum. ".data
      ++ "Limit table_of_content to 5-7 items maximum.\n\n".data
      ++ SYSTEM_PROMPT
      ++ "\n\nContent:\n".data ++ joinNl sentences
      ++ "\n\nRespond with ONLY valid JSON, no other text. Keep it SHORT:".data
  else
    "Language: ".data ++ language ++ ". ".data ++ SYSTEM_PROMPT
      ++ "\n\nContent:\n".data ++ joinNl sentences
      ++ "\n\nRespond with ONLY valid JSON, no other text:".data

/-- Outcome of one iteration of the summarize retry loop. -/
inductive SumStep
  | done (j : Json)
  | continueNext
  | raiseExc (e : PyExc)

/-- The JSONDecodeError handling of summarize: retry while attempts
remain; on the last attempt the raised parse failure is re-raised by the
RuntimeError handler because the attempt bound is reached. -/
def jsonFailStep (attempt maxRetries : Nat) : SumStep :=
  if attempt < maxRetries then SumStep.continueNext
  else SumStep.raiseExc
    ⟨ExcKind.runtimeError, "Failed to parse JSON from LLM response after 3 attempts".data⟩

/-- One iteration of the summarize try block with its exception
handlers: a RuntimeError is re-raised unless it is a parse failure with
attempts remaining; any other exception retries while attempts remain and
is wrapped on the last attempt; an empty response raises; a response not
ending in a closing brace retries, or on the last attempt undergoes the
truncation repair; otherwise the cleaned response is parsed and returned. -/
def sumAttempt (genResult : GenOutcome) (attempt maxRetries : Nat) : SumStep :=
  match genResult with
  | GenOutcome.exc e =>
    if e.kind = ExcKind.runtimeError then
      if containsSubL "Failed to parse JSON".data e.msg && decide (attempt < maxRetries) then
        SumStep.continueNext
      else SumStep.raiseExc e
    else
      if attempt < maxRetries then SumStep.continueNext
      else SumStep.raiseExc
        ⟨ExcKind.runtimeError, "Failed to summarize meeting minutes: ".data ++ e.msg⟩
  | GenOutcome.ok text =>
    if text = [] then
      SumStep.raiseExc ⟨ExcKind.runtimeError, "LLM returned empty response".data⟩
    else
      let cleaned := sumCleanup text
      if endsInRBrace (rstripL cleaned) then
        match jsonLoads cleaned with
        | some v => SumStep.done v
        | none => jsonFailStep attempt maxRetries
      else
        if attempt < maxRetries then SumStep.continueNext
        else
          match jsonLoads (repairTruncated cleaned) with
          | some v => SumStep.done v
          | none => jsonFailStep attempt maxRetries

/-- The attempt loop of summarize: three attempts, then the terminal
failure message. -/
def summarizeLoop (openaiOn : Bool) (openai gemini : List Char → GenOutcome)
    (language : List Char) (sentences : List (List Char)) :
    Nat → Nat → Except PyExc Json
  | _, 0 =>
    Except.error
      ⟨ExcKind.runtimeError, "Failed to summarize meeting minutes after all retry attempts".data⟩
  | attempt, fuel + 1 =>
    let prompt := sumPrompt language sentences attempt
    match sumAttempt (generateWithLlm openaiOn (openai prompt) (gemini prompt)).2 attempt 2 with
    | SumStep.done j => Except.ok j
    | SumStep.raiseExc e => Except.error e
    | SumStep.continueNext =>
      summarizeLoop openaiOn openai gemini language sentences (attempt + 1) fuel

/-- The summarize function of services/summarization.py over backend
oracles: the structured data returned on success is the parsed JSON
value, unvalidated and unmodified. -/
def summarize (openaiOn : Bool) (openai gemini : List Char → GenOutcome)
    (sentences : List (List Char)) (language : List Char) : Except PyExc Json :=
  summarizeLoop openaiOn openai gemini language sentences 0 3

/-! The diarize entry point of services/diarization.py: the LLM branch
parses a JSON array of speaker segments and falls back to the pattern
diarizer on any failure or empty result. -/

/-- Abridged stand-in for the _DIARIZATION_PROMPT literal; like the
summarization prompt it is never inspected by control flow. -/
def DIARIZATION_PROMPT : List Char := "DIARIZATION_PROMPT requesting a JSON array of segments".data

/-- Truthiness of a JSON value under Python semantics. -/
def jsonTruthy : Json → Bool
  | Json.null => false
  | Json.jbool b => b
  | Json.jnum raw => !(raw = "0".data || raw = "-0".data || raw = "0.0".data)
  | Json.jstr s => !s.isEmpty
  | Json.jarr xs => !xs.isEmpty
  | Json.jobj fs => !fs.isEmpty

/-- The response cleanup of diarize: strip, drop fences, strip, and
narrow to an embedded JSON array span when one exists. -/
def diarCleanup (text : List Char) : List Char :=
  let c0 := stripL text
  let c1 := if isPrefixL "```json".data c0 then c0.drop 7 else c0
  let c2 := if isPrefixL "```".data c1 then c1.drop 3 else c1
  let c3 := if isSuffixL "```".data c2 then c2.take (c2.length - 3) else c2
  let c4 := stripL c3
  match findDelimSpan '[' ']' c4 with
  | some sp => sp
  | none => c4

/-- The segment extraction of the diarize LLM branch: dictionary items
contribute a (speaker, text) pair, with defaults "Unknown" and the empty
string, kept only when the text value is truthy. -/
def llmSegments : List Json → List (Json × Json)
  | [] => []
  | item :: rest =>
    match item with
    | Json.jobj fields =>
      let speaker := (jlookup "speaker".data (Json.jobj fields)).getD (Json.jstr "Unknown".data)
      let tx := (jlookup "text".data (Json.jobj fields)).getD (Json.jstr [])
      if jsonTruthy tx then (speaker, tx) :: llmSegments rest
      else llmSegments rest
    | _ => llmSegments rest

/-- The diarize function of services/diarization.py over a backend
oracle: empty input returns the empty list; a successful backend response
that parses to a JSON list with at least one truthy-text segment is
returned; everything else falls back to the pattern diarizer, whose
string segments are wrapped as JSON strings. -/
def diarize (llm : List Char → GenOutcome) (t : List Char) : List (Json × Json) :=
  if t = [] then []
  else
    let fallback := (diarizeWithPatterns t).map
      (fun p => (Json.jstr p.1, Json.jstr p.2))
    match llm (DIARIZATION_PROMPT ++ "\n\nMeeting Transcript:\n".data ++ t) with
    | GenOutcome.exc _ => fallback
    | GenOutcome.ok response =>
      if response = [] then fallback
      else
        match jsonLoads (diarCleanup response) with
        | some (Json.jarr items) =>
          let segs := llmSegments items
          if segs.isEmpty then fallback else segs
        | _ => fallback

/-! PatternExtractor: _extract_with_rules of services/extraction.py, the
rule-based path taken whenever the transformers backend is unavailable or
fails. -/

/-- The ActionItem schema of schemas/mom.py, fields as in the source. -/
structure ActionItem where
  description : List Char
  owner : Option (List Char)
  dueDate : Option (List Char)
  priority : Option (List Char)
deriving DecidableEq

/-- The Decision schema of schemas/mom.py. -/
structure Decision where
  text : List Char
  owner : Option (List Char)
deriving DecidableEq

/-- The month-name alternation of the due-date regexes, in source
order. -/
def monthNames : List (List Char) :=
  ["january".data, "february".data, "march".data, "april".data, "may".data,
   "june".data, "july".data, "august".data, "september".data, "october".data,
   "november".data, "december".data]

/-- Date alternative: month name, whitespace, digits (case-insensitive);
returns the captured span and the rest. -/
def mDateMonth (s : List Char) : Option (List Char × List Char) :=
  match firstSome (fun mn => mLitCI mn s) monthNames with
  | some (c1, r1) =>
    match mTakeWhile1 isSpaceCh r1 with
    | some (c2, r2) =>
      match mTakeWhile1 isDigitCh r2 with
      | some (c3, r3) => some (c1 ++ c2 ++ c3, r3)
      | none => none
    | none => none
  | none => none

/-- Date alternative: the literal "the end of " followed by a word. -/
def mDateEndOf (s : List Char) : Option (List Char × List Char) :=
  match mLitCI "the end of ".data s with
  | some (c1, r1) =>
    match mTakeWhile1 isWordCh r1 with
    | some (c2, r2) => some (c1 ++ c2, r2)
    | none => none
  | none => none

/-- Date alternative: digits, slash, digits. -/
def mDateNumSlash (s : List Char) : Option (List Char × List Char) :=
  match mTakeWhile1 isDigitCh s with
  | some (c1, r1) =>
    match r1 with
    | '/' :: r2 =>
      match mTakeWhile1 isDigitCh r2 with
      | some (c2, r3) => some (c1 ++ '/' :: c2, r3)
      | none => none
    | _ => none
  | none => none

/-- Date alternative: word, whitespace, digits (the third alternative of
the "starting" pattern). -/
def mDateWordNum (s : List Char) : Option (List Char × List Char) :=
  match mTakeWhile1 isWordCh s with
  | some (c1, r1) =>
    match mTakeWhile1 isSpaceCh r1 with
    | some (c2, r2) =>
      match mTakeWhile1 isDigitCh r2 with
      | some (c3, r3) => some (c1 ++ c2 ++ c3, r3)
      | none => none
    | none => none
  | none => none

/-- The date alternation of the "by" patterns: month date, "the end of"
phrase, or numeric slash date, in source order. -/
def mDate1 (s : List Char) : Option (List Char × List Char) :=
  match mDateMonth s with
  | some r => some r
  | none =>
    match mDateEndOf s with
    | some r => some r
    | none => mDateNumSlash s

/-- The date alternation of the "starting" pattern: month date, "the end
of" phrase, or word-number date. -/
def mDate2 (s : List Char) : Option (List Char × List Char) :=
  match mDateMonth s with
  | some r => some r
  | none =>
    match mDateEndOf s with
    | some r => some r
    | none => mDateWordNum s

/-- The matcher of the due-date search re.search(by\s+(DATE), sentence,
IGNORECASE) at one position; returns the captured date. -/
def mByDate (s : List Char) : Option (List Char) :=
  match mLitCI "by".data s with
  | some (_, r1) =>
    match mTakeWhile1 isSpaceCh r1 with
    | some (_, r2) =>
      match mDate1 r2 with
      | some (g, _) => some g
      | none => none
    | none => none
  | none => none

/-- The leftmost due-date search over a sentence. -/
def searchByDate (s : List Char) : Option (List Char) := searchSpan mByDate s

/-- The character class [\w\s] of the description captures. -/
def isDescCh (c : Char) : Bool := isWordCh c || isSpaceCh c

/-- Consume exactly n characters of a class. -/
def takeExactCls (cls : Char → Bool) : Nat → List Char → Option (List Char × List Char)
  | 0, s => some ([], s)
  | _ + 1, [] => none
  | n + 1, c :: cs =>
    if cls c then
      match takeExactCls cls n cs with
      | some (con, r) => some (c :: con, r)
      | none => none
    else none

/-- Grow a lazy capture one class character at a time, trying the
continuation first at each length, up to the remaining budget. -/
def lazyBounded {β : Type} (cls : Char → Bool) (termCont : List Char → Option β) :
    Nat → List Char → List Char → Option (List Char × β)
  | budget, acc, rest =>
    match termCont rest with
    | some b => some (acc, b)
    | none =>
      match budget with
      | 0 => none
      | b + 1 =>
        match rest with
        | [] => none
        | c :: cs => if cls c then lazyBounded cls termCont b (acc ++ [c]) cs else none

/-- A bounded lazy capture cls-min-max-question: consume the minimum
eagerly, then extend lazily. -/
def lazyCls {β : Type} (cls : Char → Bool) (termCont : List Char → Option β)
    (minL maxL : Nat) (s : List Char) : Option (List Char × β) :=
  match takeExactCls cls minL s with
  | some (con, r) => lazyBounded cls termCont (maxL - minL) con r
  | none => none

/-- Space run then a case-sensitive literal: one terminator alternative
of the general action patterns. -/
def spThenLit (lit : List Char) (s : List Char) : Bool :=
  match mTakeWhile1 isSpaceCh s with
  | some (_, r) => isPrefixL lit r
  | none => false

/-- The terminator alternation of the first general pattern:
space-by, space-starting, space-to, a period, or end of input. -/
def gp1TermOk (s : List Char) : Bool :=
  spThenLit "by".data s || spThenLit "starting".data s || spThenLit "to".data s ||
    (match s with
     | '.' :: _ => true
     | [] => true
     | _ => false)

/-- The terminator alternation of the second general pattern:
space-by, space-to, a period, or end of input. -/
def gp2TermOk (s : List Char) : Bool :=
  spThenLit "by".data s || spThenLit "to".data s ||
    (match s with
     | '.' :: _ => true
     | [] => true
     | _ => false)

/-- The capitalized-name capture [A-Z][a-z]+ of the case-sensitive
general patterns. -/
def mOwnerName (s : List Char) : Option (List Char × List Char) :=
  match s with
  | c :: cs =>
    if isUpperCh c then
      match mTakeWhile1 isLowerCh cs with
      | some (low, r) => some (c :: low, r)
      | none => none
    else none
  | [] => none

/-- Whitespace, the literal "will", whitespace: the case-sensitive
keyword section of the first general pattern. -/
def kwWillMid (s : List Char) : Option (List Char) :=
  match mTakeWhile1 isSpaceCh s with
  | some (_, r1) =>
    match dropExact "will".data r1 with
    | some r2 =>
      match mTakeWhile1 isSpaceCh r2 with
      | some (_, r3) => some r3
      | none => none
    | none => none
  | none => none

/-- Whitespace, must-or-should, whitespace: the keyword section of the
second general pattern. -/
def kwMustShouldMid (s : List Char) : Option (List Char) :=
  match mTakeWhile1 isSpaceCh s with
  | some (_, r1) =>
    match
      (match dropExact "must".data r1 with
       | some r2 => some r2
       | none => dropExact "should".data r1) with
    | some r2 =>
      match mTakeWhile1 isSpaceCh r2 with
      | some (_, r3) => some r3
      | none => none
    | none => none
  | none => none

/-- The body of a general action pattern at a position: capitalized name
with an optional second capitalized name (tried greedily first), the
keyword section, then the bounded lazy description capture; returns the
owner and description captures. -/
def mGenAction (kwMid : List Char → Option (List Char)) (termOk : List Char → Bool)
    (s : List Char) : Option (List Char × List Char) :=
  match mOwnerName s with
  | none => none
  | some (o1, r1) =>
    let tail := fun (owner : List Char) (r : List Char) =>
      match kwMid r with
      | some r4 =>
        match lazyCls isDescCh (fun t => if termOk t then some t else none) 10 80 r4 with
        | some (d, _) => some (owner, d)
        | none => none
      | none => none
    let withSecond :=
      match mTakeWhile1 isSpaceCh r1 with
      | some (sp, r2) =>
        match mOwnerName r2 with
        | some (o2, r3) => tail (o1 ++ sp ++ o2) r3
        | none => none
      | none => none
    match withSecond with
    | some r => some r
    | none => tail o1 r1

/-- Generic re.search with a \b lookbehind for matchers returning any
capture type. -/
def searchBWGen {β : Type} (m : List Char → Option β) : Bool → List Char → Option β
  | _, [] => none
  | prevW, c :: cs =>
    match (if prevW != isWordCh c then m (c :: cs) else none) with
    | some g => some g
    | none => searchBWGen m (isWordCh c) cs

/-- The first general action pattern applied to one stripped sentence:
owner and description captures plus the separate due-date search. -/
def gpAction1 (sentence : List Char) : Option ActionItem :=
  match searchBWGen (mGenAction kwWillMid gp1TermOk) false sentence with
  | some (owner, desc) =>
    let due := searchByDate sentence
    if (stripL desc).length > 5 then
      some ⟨stripL desc, some (stripL owner), due, none⟩
    else none
  | none => none

/-- The second general action pattern applied to one stripped sentence;
no due date is attached. -/
def gpAction2 (sentence : List Char) : Option ActionItem :=
  match searchBWGen (mGenAction kwMustShouldMid gp2TermOk) false sentence with
  | some (owner, desc) =>
    if (stripL desc).length > 5 then
      some ⟨stripL desc, some (stripL owner), none, none⟩
    else none
  | none => none

/-! The sentence splitter of _extract_with_rules: re.split on runs of
sentence-terminal punctuation. -/

mutual

/-- Split on runs of sentence-terminal punctuation. -/
def splitTermRuns : List Char → List (List Char)
  | [] => [[]]
  | c :: cs =>
    if isTermPunct c then [] :: splitTermSkip cs
    else
      match splitTermRuns cs with
      | [] => [[c]]
      | p :: ps => (c :: p) :: ps

/-- Skip the remainder of a punctuation run, then resume splitting. -/
def splitTermSkip : List Char → List (List Char)
  | [] => [[]]
  | c :: cs =>
    if isTermPunct c then splitTermSkip cs
    else
      match splitTermRuns cs with
      | [] => [[c]]
      | p :: ps => (c :: p) :: ps

end

/-- The section marker of the specialized pass, with its literal
period. -/
def sectionMarker : List Char := "Action items were assigned.".data

/-- Scan for the leftmost case-insensitive occurrence of a pattern,
returning the matched characters and the rest. -/
def findAfterCI (pat : List Char) : List Char → Option (List Char × List Char)
  | [] => none
  | c :: cs =>
    match mLitCI pat (c :: cs) with
    | some (con, rest) => some (con, rest)
    | none => findAfterCI pat cs

/-- The lazy section body: everything up to the first case-insensitive
"Before closing" or "The next", or to the end of input; returns the body
and the consumed ender span. -/
def sectionBody : List Char → List Char × List Char
  | [] => ([], [])
  | c :: cs =>
    if (stripPrefixCI "Before closing".data (c :: cs)).isSome then
      ([], (c :: cs).take 14)
    else if (stripPrefixCI "The next".data (c :: cs)).isSome then
      ([], (c :: cs).take 8)
    else
      match sectionBody cs with
      | (g, e) => (c :: g, e)

/-- The action-section search: group 0 (the whole match) and group 1
(the body). -/
def actionSection (text : List Char) : Option (List Char × List Char) :=
  match findAfterCI sectionMarker text with
  | none => none
  | some (mk, rest) =>
    match sectionBody rest with
    | (g1, ender) => some (mk ++ g1 ++ ender, g1)

/-- Whitespace, case-insensitive "will", whitespace: the keyword section
of the specialized (IGNORECASE) patterns. -/
def kwWillMidCI (s : List Char) : Option (List Char) :=
  match mTakeWhile1 isSpaceCh s with
  | some (_, r1) =>
    match stripPrefixCI "will".data r1 with
    | some r2 =>
      match mTakeWhile1 isSpaceCh r2 with
      | some (_, r3) => some r3
      | none => none
    | none => none
  | none => none

/-- Terminator of the first specialized pattern: whitespace, "by",
whitespace, then a DATE1 capture; returns the date and the rest. -/
def contByDate1 (s : List Char) : Option (List Char × List Char) :=
  match mTakeWhile1 isSpaceCh s with
  | some (_, r1) =>
    match stripPrefixCI "by".data r1 with
    | some r2 =>
      match mTakeWhile1 isSpaceCh r2 with
      | some (_, r3) => mDate1 r3
      | none => none
    | none => none
  | none => none

/-- Terminator of the second specialized pattern: whitespace,
"starting", whitespace, then a DATE2 capture. -/
def contStartingDate2 (s : List Char) : Option (List Char × List Char) :=
  match mTakeWhile1 isSpaceCh s with
  | some (_, r1) =>
    match stripPrefixCI "starting".data r1 with
    | some r2 =>
      match mTakeWhile1 isSpaceCh r2 with
      | some (_, r3) => mDate2 r3
      | none => none
    | none => none
  | none => none

/-- The body of a specialized pattern at one position: word with optional
second word, the will keyword, the unbounded lazy description, and the
date-bearing terminator; returns owner, description, date, and the rest
after the match. -/
def mSpecific (cont : List Char → Option (List Char × List Char)) (s : List Char) :
    Option ((List Char × List Char × List Char) × List Char) :=
  match mTakeWhile1 isWordCh s with
  | none => none
  | some (w1, r1) =>
    let tail := fun (owner : List Char) (r : List Char) =>
      match kwWillMidCI r with
      | some r4 =>
        match lazyCls isDescCh cont 1 r4.length r4 with
        | some (d, (due, rest)) => some ((owner, d, due), rest)
        | none => none
      | none => none
    let withSecond :=
      match mTakeWhile1 isSpaceCh r1 with
      | some (sp, r2) =>
        match mTakeWhile1 isWordCh r2 with
        | some (w2, r3) => tail (w1 ++ sp ++ w2) r3
        | none => none
      | none => none
    match withSecond with
    | some r => some r
    | none => tail w1 r1

/-- re.finditer for a specialized pattern: non-overlapping matches
scanned left to right, continuing after each match end. -/
def finditerSpec (cont : List Char → Option (List Char × List Char)) :
    Nat → List Char → List (List Char × List Char × List Char)
  | 0, _ => []
  | _ + 1, [] => []
  | fuel + 1, c :: cs =>
    match mSpecific cont (c :: cs) with
    | some (groups, rest) => groups :: finditerSpec cont fuel rest
    | none => finditerSpec cont fuel cs

/-- Python str.title(): the first letter of every letter run is
uppercased and the rest lowercased. -/
def pyTitleGo : Bool → List Char → List Char
  | _, [] => []
  | prevAlpha, c :: cs =>
    if isAlphaCh c then
      (if prevAlpha then lowerCh c else upperCh c) :: pyTitleGo true cs
    else c :: pyTitleGo false cs

/-- Python str.title(). -/
def pyTitle (l : List Char) : List Char := pyTitleGo false l

/-- The specialized pass over the section body: both patterns run in
source order; owners are stripped and title-cased, descriptions stripped
and whitespace-collapsed, and the length gates of the source applied. -/
def sectionActions (g1 : List Char) : List ActionItem :=
  ((finditerSpec contByDate1 g1.length g1) ++ (finditerSpec contStartingDate2 g1.length g1)).filterMap
    (fun groups =>
      let owner := pyTitle (stripL groups.1)
      let desc := stripL (collapseWs (stripL groups.2.1))
      let due := stripL groups.2.2
      if desc.length > 5 && decide (owner.length < 30) then
        some ⟨desc, some owner, some due, none⟩
      else none)

/-- The decision-indicator keyword list, in source order. -/
def decisionKeywords : List (List Char) :=
  ["proposal is to".data, "proposal includes".data, "policy will".data,
   "guideline will".data, "decided to".data, "agreed to".data,
   "consensus was".data, "will be rolled out".data]

/-- Python str.split on a substring separator (fueled, non-overlapping,
left to right). -/
def splitOnSubFuel (pat : List Char) : Nat → List Char → List (List Char)
  | 0, s => [s]
  | fuel + 1, s =>
    match s with
    | [] => [[]]
    | c :: cs =>
      if isPrefixL pat (c :: cs) then
        [] :: splitOnSubFuel pat fuel ((c :: cs).drop pat.length)
      else
        match splitOnSubFuel pat fuel cs with
        | [] => [[c]]
        | p :: ps => (c :: p) :: ps

/-- Python str.split on a substring separator. -/
def splitOnSub (pat s : List Char) : List (List Char) := splitOnSubFuel pat s.length s

/-- The clause-boundary word alternation of the decision trimmer. -/
def boundaryWords : List (List Char) :=
  ["the".data, "this".data, "it".data, "and".data, "but".data, "however".data]

/-- Whether a clause boundary (whitespace, boundary word, whitespace)
starts at this position. -/
def boundaryAt (s : List Char) : Bool :=
  match mTakeWhile1 isSpaceCh s with
  | some (_, r) =>
    boundaryWords.any
      (fun w =>
        match dropExact w r with
        | some r2 =>
          match r2 with
          | c :: _ => isSpaceCh c
          | [] => false
        | none => false)
  | none => false

/-- The first part of re.split on the clause boundary: everything before
the earliest boundary match. -/
def upToBoundary : List Char → List Char
  | [] => []
  | c :: cs => if boundaryAt (c :: cs) then [] else c :: upToBoundary cs

/-- The decision extraction for one stripped sentence: the first
indicator keyword present in the lowercased sentence contributes the text
after its first occurrence, collapsed, trimmed at a clause boundary, and
length-gated. -/
def sentenceDecision (sentence : List Char) : Option Decision :=
  match
    firstSome
      (fun kw => if containsSubL kw (lowerL sentence) then some kw else none)
      decisionKeywords with
  | none => none
  | some kw =>
    match splitOnSub kw (lowerL sentence) with
    | _ :: p1 :: _ =>
      let dt := collapseWs (stripL p1)
      let d0 := upToBoundary dt
      if decide (d0.length > 15) && decide (d0.length < 200) then
        some ⟨stripL d0, none⟩
      else none
    | _ => none

/-- The response-section markers, in source order. -/
def respPatterns : List (List Char) :=
  ["To solve this,".data, "In response,".data, "To address this,".data,
   "To compensate,".data]

/-- The dot character class of the response patterns (no DOTALL: any
character except a newline). -/
def isDotAnyCh (c : Char) : Bool := decide (c ≠ '\n')

/-- Terminator of a response pattern: a literal period (consumed) or end
of input. -/
def respTermCont (s : List Char) : Option (List Char) :=
  match s with
  | '.' :: r => some r
  | [] => some []
  | _ => none

/-- One response pattern at one position: the case-insensitive marker,
whitespace, a 20-to-200 character lazy capture, and the terminator;
returns the capture and the rest. -/
def mResp (marker : List Char) (s : List Char) : Option (List Char × List Char) :=
  match mLitCI marker s with
  | some (_, r1) =>
    match mTakeWhile1 isSpaceCh r1 with
    | some (_, r2) =>
      match lazyCls isDotAnyCh respTermCont 20 200 r2 with
      | some (g, rest) => some (g, rest)
      | none => none
    | none => none
  | none => none

/-- re.finditer for one response pattern over the whole text. -/
def finditerResp (marker : List Char) : Nat → List Char → List (List Char)
  | 0, _ => []
  | _ + 1, [] => []
  | fuel + 1, c :: cs =>
    match mResp marker (c :: cs) with
    | some (g1, rest) => g1 :: finditerResp marker fuel rest
    | none => finditerResp marker fuel cs

/-- The response-section decisions: every pattern in order, captures
stripped, collapsed, and length-gated. -/
def respDecisions (text : List Char) : List Decision :=
  respPatterns.foldr
    (fun mk acc =>
      ((finditerResp mk text.length text).filterMap
        (fun g =>
          let dt := collapseWs (stripL g)
          if decide (dt.length > 15) then some ⟨dt, none⟩ else none)) ++ acc)
    []

/-- The general action pass: per stripped sentence of at least 20
characters, skipping sentences contained in the matched action section,
both general patterns contribute in source order. -/
def generalActionsGo (sec0 : Option (List Char)) : List (List Char) → List ActionItem
  | [] => []
  | snt :: rest =>
    let s := stripL snt
    if s = [] || decide (s.length < 20) then generalActionsGo sec0 rest
    else if
        (match sec0 with
         | some g0 => containsSubL s g0
         | none => false) then generalActionsGo sec0 rest
    else
      (match gpAction1 s with
       | some a => [a]
       | none => []) ++
      (match gpAction2 s with
       | some a => [a]
       | none => []) ++
      generalActionsGo sec0 rest

/-- The decision pass over stripped sentences of at least 20
characters. -/
def sentenceDecisionsGo : List (List Char) → List Decision
  | [] => []
  | snt :: rest =>
    let s := stripL snt
    if s = [] || decide (s.length < 20) then sentenceDecisionsGo rest
    else
      (match sentenceDecision s with
       | some d => [d]
       | none => []) ++ sentenceDecisionsGo rest

/-- Action deduplication by lowercased description, keeping first
occurrences. -/
def dedupActionsGo (seen : List (List Char)) : List ActionItem → List ActionItem
  | [] => []
  | a :: rest =>
    let key := lowerL a.description
    if seen.any (fun s => decide (s = key)) then dedupActionsGo seen rest
    else a :: dedupActionsGo (key :: seen) rest

/-- Decision deduplication by the first 50 characters of the lowercased
text. -/
def dedupDecisionsGo (seen : List (List Char)) : List Decision → List Decision
  | [] => []
  | d :: rest =>
    let key := (lowerL d.text).take 50
    if seen.any (fun s => decide (s = key)) then dedupDecisionsGo seen rest
    else d :: dedupDecisionsGo (key :: seen) rest

/-- The _extract_with_rules function of services/extraction.py: the
specialized section pass, the general per-sentence action pass, the
keyword decision pass, the response-section pass, deduplication, and the
15-item caps. -/
def extractWithRules (text : List Char) : List ActionItem × List Decision :=
  let sec := actionSection text
  let secActions :=
    match sec with
    | some (_, g1) => sectionActions g1
    | none => []
  let sents := splitTermRuns text
  let actions := secActions ++ generalActionsGo (sec.map (fun p => p.1)) sents
  let decisions := sentenceDecisionsGo sents ++ respDecisions text
  ((dedupActionsGo [] actions).take 15, (dedupDecisionsGo [] decisions).take 15)

/-- Python " ".join. -/
def joinSp : List (List Char) → List Char
  | [] => []
  | [x] => x
  | x :: y :: rest => x ++ ' ' :: joinSp (y :: rest)

/-- The sentence preparation of the /extract endpoint of main.py:
newlines become spaces, the text is split on periods, and the stripped
nonblank pieces are kept. -/
def endpointSentences (t : List Char) : List (List Char) :=
  ((splitOnCh '.' (t.map (fun c => if c = '\n' then ' ' else c))).map stripL).filter
    (fun s => decide (s ≠ []))

/-- The rule-based branch of extract_actions_and_decisions: the sentences
are joined with single spaces and handed to _extract_with_rules. -/
def extractActionsAndDecisionsRules (sentences : List (List Char)) :
    List ActionItem × List Decision :=
  extractWithRules (joinSp sentences)

/-- The full rule-based extraction path from raw endpoint text. -/
def extractViaRules (t : List Char) : List ActionItem × List Decision :=
  extractActionsAndDecisionsRules (endpointSentences t)

-- ===== THEOREMS =====

theorem subWordFuel_of_no_occ (pat : List Char) :
    ∀ (fuel : Nat) (prevW : Bool) (s : List Char),
      existsWholeWordCI pat prevW s = false → subWordFuel pat fuel prevW s = s := by
  intro fuel
  induction fuel with
  | zero => intro prevW s _; rfl
  | succ n ih =>
    intro prevW s h
    cases s with
    | nil => rfl
    | cons c cs =>
      have h2 : wholeWordAt pat prevW (c :: cs) = false ∧
          existsWholeWordCI pat (isWordCh c) cs = false := by
        have := h
        unfold existsWholeWordCI at this
        exact Bool.or_eq_false_iff.mp this
      unfold subWordFuel
      cases hsp : stripPrefixCI pat (c :: cs) with
      | some rest =>
        have hb : wordBoundaryOk pat prevW c rest = false := by
          have := h2.1
          unfold wholeWordAt at this
          rw [hsp] at this
          exact this
        simp only [hsp, hb, Bool.false_eq_true, if_false]
        rw [ih (isWordCh c) cs h2.2]
      | none =>
        simp only [hsp]
        rw [ih (isWordCh c) cs h2.2]

theorem foldl_subWord_of_no_occ (L : List (List Char)) :
    ∀ s : List Char, (∀ pat ∈ L, existsWholeWordCI pat false s = false) →
      L.foldl (fun t pat => subWordCI pat t) s = s := by
  induction L with
  | nil => intro s _; rfl
  | cons p ps ih =>
    intro s h
    have hp : subWordCI p s = s :=
      subWordFuel_of_no_occ p s.length false s (h p (List.mem_cons_self p ps))
    simp only [List.foldl_cons, hp]
    exact ih s (fun pat hmem => h pat (List.mem_cons_of_mem p hmem))

/-- C7: the filler-removal loop of _clean_with_patterns deletes a filler
token only at whole-word, case-insensitive occurrences: on any string in
which no filler occurs as a whole word the loop is the identity, and in
particular a filler inside a longer word is untouched ("uhm" survives)
while the same filler standing alone is deleted ("um" is removed). -/
theorem c7_removeFillers_whole_word_only :
    (∀ s : List Char,
        (∀ pat ∈ fillerWords, existsWholeWordCI pat false s = false) →
        removeFillers s = s)
    ∧ removeFillers "say um now".data = "say  now".data
    ∧ removeFillers "say uhm now".data = "say uhm now".data := by
  refine ⟨?_, by decide, by decide⟩
  intro s h
  exact foldl_subWord_of_no_occ fillerWords s h

/-- C7 witness: the universal part of the theorem applied at a concrete
string containing a filler only inside a longer word. -/
theorem c7_removeFillers_whole_word_only_witness :
    removeFillers "say uhm now".data = "say uhm now".data :=
  c7_removeFillers_whole_word_only.1 "say uhm now".data (by decide)

/-- C8 counterexample: _clean_with_patterns is not idempotent.  Removing
the filler "um" from "you um know" leaves a double space, so the
multi-word filler "you know" (whose pattern contains a single space) is
not matched in the same pass; after whitespace is re-collapsed, a second
application removes it. -/
theorem c8_clean_not_idempotent :
    cleanPatterns (cleanPatterns "you um know") ≠ cleanPatterns "you um know" := by
  decide

/-- C8 amended: _clean_with_patterns is not idempotent in general; on the
input "you um know" one application yields "You know." and a second
application yields ".". -/
theorem c8_clean_double_apply :
    cleanPatterns "you um know" = "You know." ∧ cleanPatterns "You know." = "." := by
  exact ⟨by decide, by decide⟩

theorem appendDot_spec (l : List Char) :
    appendDot l = [] ∨ isTermPunct ((appendDot l).getLastD ' ') = true := by
  unfold appendDot
  by_cases h : l = []
  · left; simp [h]
  · right
    rw [if_neg h]
    by_cases h2 : isTermPunct (l.getLastD ' ') = true
    · rw [if_pos h2]; exact h2
    · rw [if_neg h2]
      rw [List.getLastD_concat]
      rfl

theorem cleanPatternsL_terminal (l : List Char) :
    cleanPatternsL l = [] ∨ isTermPunct ((cleanPatternsL l).getLastD ' ') = true := by
  unfold cleanPatternsL
  by_cases hs : l = []
  · left; simp [hs]
  · rw [if_neg hs]
    exact appendDot_spec _

/-- C10: for every input string, _clean_with_patterns returns either the
empty string or a string whose final character is one of the
sentence-terminal punctuation characters, because a terminal period is
appended whenever the nonempty result lacks one. -/
theorem c10_clean_terminal_punctuation (s : String) :
    cleanPatterns s = "" ∨ isTermPunct ((cleanPatterns s).data.getLastD ' ') = true := by
  have hdata : (cleanPatterns s).data = cleanPatternsL s.data := rfl
  rcases cleanPatternsL_terminal s.data with h | h
  · left
    show String.mk (cleanPatternsL s.data) = ""
    rw [h]
  · right
    rw [hdata]
    exact h

/-- C6: within one generate invocation, an OpenAI failure whose message
contains "429" triggers exactly one call to the Gemini backend and the
invocation returns whatever that single Gemini call produced; an error of
no recognized exception type whose message matches no classification
keyword is re-raised unchanged with zero Gemini calls. -/
theorem c6_gateway_fallback :
    (∀ (e : PyExc) (g : GenOutcome),
        containsSubL "429".data (lowerL e.msg) = true →
        generateWithLlm true (GenOutcome.exc e) g = (1, g))
    ∧ (∀ (e : PyExc) (g : GenOutcome),
        e.kind = ExcKind.otherError →
        isAuthError e = false →
        generateWithLlm true (GenOutcome.exc e) g = (0, GenOutcome.exc e)) := by
  constructor
  · intro e g h429
    have hauth : isAuthError e = true := by
      unfold isAuthError
      rw [h429]
      simp
    unfold generateWithLlm
    rw [if_pos rfl]
    simp only [hauth, if_true]
  · intro e g hkind hauth
    unfold generateWithLlm
    rw [if_pos rfl]
    simp only [hauth, Bool.false_eq_true, if_false, hkind]
    simp

/-- C6 witness: the theorem applied to a concrete 429 rate-limit error
and a concrete unclassifiable error. -/
theorem c6_gateway_fallback_witness :
    generateWithLlm true (GenOutcome.exc ⟨ExcKind.otherError, "Error code: 429 - rate limited".data⟩)
        (GenOutcome.ok "gemini text".data) = (1, GenOutcome.ok "gemini text".data)
    ∧ generateWithLlm true (GenOutcome.exc ⟨ExcKind.otherError, "boom".data⟩)
        (GenOutcome.ok "gemini text".data)
      = (0, GenOutcome.exc ⟨ExcKind.otherError, "boom".data⟩) :=
  ⟨c6_gateway_fallback.1 _ _ (by decide), c6_gateway_fallback.2 _ _ rfl (by decide)⟩

theorem sumAttempt_runtime_raise (e : PyExc) (attempt maxR : Nat)
    (hk : e.kind = ExcKind.runtimeError)
    (hmsg : containsSubL "Failed to parse JSON".data e.msg = false) :
    sumAttempt (GenOutcome.exc e) attempt maxR = SumStep.raiseExc e := by
  unfold sumAttempt
  simp only [hk, hmsg, Bool.false_and, Bool.false_eq_true, if_false, if_true, reduceIte]

theorem summarizeLoop_succ (oOn : Bool) (o g : List Char → GenOutcome)
    (lang : List Char) (snts : List (List Char)) (attempt fuel : Nat) :
    summarizeLoop oOn o g lang snts attempt (fuel + 1)
      = (match sumAttempt
            (generateWithLlm oOn (o (sumPrompt lang snts attempt))
              (g (sumPrompt lang snts attempt))).2 attempt 2 with
         | SumStep.done j => Except.ok j
         | SumStep.raiseExc e => Except.error e
         | SumStep.continueNext => summarizeLoop oOn o g lang snts (attempt + 1) fuel) := rfl

theorem sumAttempt_ok_parses (txt : List Char) (v : Json) (attempt maxR : Nat)
    (htxt : txt ≠ []) (hend : endsInRBrace (rstripL (sumCleanup txt)) = true)
    (hparse : jsonLoads (sumCleanup txt) = some v) :
    sumAttempt (GenOutcome.ok txt) attempt maxR = SumStep.done v := by
  unfold sumAttempt
  simp [htxt, hend, hparse]

/-- C1 counterexample: with generative backends unavailable, the
rule-based extraction path applied to the end-to-end transcript of the
spec does not return two ActionItems: the subject class [A-Z][a-z]+ of
the general pattern cannot match the all-uppercase owner "HR", and the
commitment keywords cover only will, must and should, not "needs to". -/
theorem c1_extraction_not_two_actions :
    (extractViaRules "HR will draft the remote work policy by October 15. Finance needs to finalize the Q4 budget by October 20.".data).1.length
      ≠ 2 := by
  decide

/-- C1 amended: on the end-to-end transcript of the spec, the rule-based
extraction path returns zero ActionItems and zero Decisions, raising no
exception: it is a total function and both result lists are empty. -/
theorem c1_extraction_empty :
    extractViaRules "HR will draft the remote work policy by October 15. Finance needs to finalize the Q4 budget by October 20.".data
      = ([], []) := by
  rfl

/-- C3 counterexample: on the input sentence of the claim, rule-based
extraction yields exactly one ActionItem and its due date is null, not a
value containing "next Monday": the due-date regex recognizes only
month-name dates, "the end of" phrases, and numeric slash dates. -/
theorem c3_due_date_none :
    ((extractWithRules "John will prepare the presentation slides by next Monday.".data).1.map
        ActionItem.dueDate)
      = [none] := by
  rfl

/-- C3 amended: the input yields exactly one ActionItem with description
"prepare the presentation slides", owner "John", and a null due date. -/
theorem c3_extraction_result :
    extractWithRules "John will prepare the presentation slides by next Monday.".data
      = ([⟨"prepare the presentation slides".data, some "John".data, none, none⟩], []) := by
  rfl

/-- C2 counterexample: with every generative backend failing, the
summarize task propagates the gateway RuntimeError to its caller on the
first attempt instead of falling back; no deterministic summarizer exists
in the code. -/
theorem c2_summarize_propagates_failure :
    summarize false (fun _ => GenOutcome.exc ⟨ExcKind.otherError, "no key".data⟩)
        (fun _ => GenOutcome.exc ⟨ExcKind.otherError, "boom".data⟩)
        ["hello there".data] "vi".data
      = Except.error ⟨ExcKind.runtimeError, "Gemini API failed: boom".data⟩ := by
  rfl

/-- C2 amended: for every input, when the configured backend chain fails
(no OpenAI, Gemini raising), summarize raises the wrapped RuntimeError of
the gateway to its caller; there is no deterministic pattern-based
fallback for summarization. -/
theorem c2_summarize_backend_failure_raises
    (openai gemini : List Char → GenOutcome) (sentences : List (List Char))
    (language msg : List Char) (k : ExcKind)
    (hgem : ∀ p, gemini p = GenOutcome.exc ⟨k, msg⟩)
    (hmsg : containsSubL "Failed to parse JSON".data ("Gemini API failed: ".data ++ msg)
      = false) :
    summarize false openai gemini sentences language
      = Except.error ⟨ExcKind.runtimeError, "Gemini API failed: ".data ++ msg⟩ := by
  show summarizeLoop false openai gemini language sentences 0 3 = _
  rw [summarizeLoop_succ, hgem]
  rw [show (generateWithLlm false (openai (sumPrompt language sentences 0))
        (GenOutcome.exc ⟨k, msg⟩)).2
      = GenOutcome.exc ⟨ExcKind.runtimeError, "Gemini API failed: ".data ++ msg⟩ from rfl]
  rw [sumAttempt_runtime_raise _ _ _ rfl hmsg]

/-- C2 witness: the amended theorem applied to a concrete failing
backend. -/
theorem c2_summarize_backend_failure_raises_witness :
    summarize false (fun _ => GenOutcome.exc ⟨ExcKind.otherError, "no key".data⟩)
        (fun _ => GenOutcome.exc ⟨ExcKind.valueError, "socket closed".data⟩)
        ["hi".data] "vi".data
      = Except.error ⟨ExcKind.runtimeError, "Gemini API failed: socket closed".data⟩ :=
  c2_summarize_backend_failure_raises _ _ _ _ _ ExcKind.valueError (fun _ => rfl) (by decide)

/-- C5 counterexample: a backend response whose title field is the JSON
null flows through summarize unchanged, so the returned structured
summary has a null field; the "To be determined" defaults exist only in
the prompt text and are not enforced by any code. -/
theorem c5_summary_field_null :
    summarize false (fun _ => GenOutcome.exc ⟨ExcKind.otherError, "off".data⟩)
        (fun _ => GenOutcome.ok "\x7b\"title\": null\x7d".data) ["hi".data] "vi".data
      = Except.ok (Json.jobj [("title".data, Json.null)])
    ∧ jlookup "title".data (Json.jobj [("title".data, Json.null)]) = some Json.null :=
  ⟨rfl, rfl⟩

/-- C5 amended: on a successful backend call whose cleaned response ends
in a closing brace and parses, summarize returns the parsed JSON value
verbatim, with no default filling or validation of any field. -/
theorem c5_summarize_returns_parsed_json
    (openai gemini : List Char → GenOutcome) (sentences : List (List Char))
    (language txt : List Char) (v : Json)
    (hgem : ∀ p, gemini p = GenOutcome.ok txt)
    (htxt : txt ≠ [])
    (hend : endsInRBrace (rstripL (sumCleanup txt)) = true)
    (hparse : jsonLoads (sumCleanup txt) = some v) :
    summarize false openai gemini sentences language = Except.ok v := by
  show summarizeLoop false openai gemini language sentences 0 3 = _
  rw [summarizeLoop_succ, hgem]
  rw [show (generateWithLlm false (openai (sumPrompt language sentences 0))
        (GenOutcome.ok txt)).2 = GenOutcome.ok txt from rfl]
  rw [sumAttempt_ok_parses txt v 0 2 htxt hend hparse]

/-- C5 witness: the amended theorem applied to a concrete backend
response. -/
theorem c5_summarize_returns_parsed_json_witness :
    summarize false (fun _ => GenOutcome.exc ⟨ExcKind.otherError, "off".data⟩)
        (fun _ => GenOutcome.ok "\x7b\"a\": 1\x7d".data) ["hey".data] "en".data
      = Except.ok (Json.jobj [("a".data, Json.jnum ['1'])]) :=
  c5_summarize_returns_parsed_json _ _ _ _ _ _ (fun _ => rfl) (by decide) (by rfl) (by rfl)


theorem mLitCI_ne_nil : ∀ (pat s con rest : List Char), pat ≠ [] →
    mLitCI pat s = some (con, rest) → con ≠ [] := by
  intro pat s con rest hp h
  match pat, s with
  | [], _ => exact absurd rfl hp
  | _ :: _, [] => simp [mLitCI] at h
  | p :: ps, c :: cs =>
    unfold mLitCI at h
    split at h
    · split at h
      · simp only [Option.some.injEq, Prod.mk.injEq] at h
        obtain ⟨h1, _⟩ := h
        rw [← h1]
        simp
      · simp at h
    · simp at h

theorem mTakeWhile1_ne_nil (p : Char → Bool) (s con rest : List Char)
    (h : mTakeWhile1 p s = some (con, rest)) : con ≠ [] := by
  cases s with
  | nil => simp [mTakeWhile1] at h
  | cons c cs =>
    simp only [mTakeWhile1] at h
    split at h
    · simp only [Option.some.injEq, Prod.mk.injEq] at h
      obtain ⟨h1, _⟩ := h
      rw [← h1]
      simp
    · simp at h

theorem mLitSpacesDigits_ne_nil (lit : List Char) (allowSp : Bool) (s sp : List Char)
    (hl : lit ≠ []) (h : mLitSpacesDigits lit allowSp s = some sp) : sp ≠ [] := by
  unfold mLitSpacesDigits at h
  cases hm : mLitCI lit s with
  | none => rw [hm] at h; simp at h
  | some pr =>
    obtain ⟨c1, r1⟩ := pr
    rw [hm] at h
    dsimp only at h
    have hc1 : c1 ≠ [] := mLitCI_ne_nil lit s c1 r1 hl hm
    rcases hif : (if allowSp = true then mTakeWhile isSpaceCh r1 else ([], r1)) with ⟨c2, r2⟩
    rw [hif] at h
    cases hd : mTakeWhile1 isDigitCh r2 with
    | none => rw [hd] at h; simp at h
    | some pr2 =>
      obtain ⟨c3, r3⟩ := pr2
      rw [hd] at h
      simp only [Option.some.injEq] at h
      rw [← h]
      simp [hc1]

theorem mNguoiNoi_ne_nil (s sp : List Char) (h : mNguoiNoi s = some sp) : sp ≠ [] := by
  unfold mNguoiNoi at h
  cases hm : mLitCI "Người".data s with
  | none => rw [hm] at h; simp at h
  | some pr =>
    obtain ⟨c1, r1⟩ := pr
    rw [hm] at h
    dsimp only at h
    have hc1 : c1 ≠ [] := mLitCI_ne_nil _ s c1 r1 (by decide) hm
    cases h2 : mTakeWhile1 isSpaceCh r1 with
    | none => rw [h2] at h; simp at h
    | some pr2 =>
      obtain ⟨c2, r2⟩ := pr2
      rw [h2] at h
      dsimp only at h
      cases h3 : mLitCI "nói".data r2 with
      | none => rw [h3] at h; simp at h
      | some pr3 =>
        obtain ⟨c3, r3⟩ := pr3
        rw [h3] at h
        dsimp only at h
        rcases h4 : mTakeWhile isSpaceCh r3 with ⟨c4, r4⟩
        rw [h4] at h
        dsimp only at h
        cases h5 : mTakeWhile1 isDigitCh r4 with
        | none => rw [h5] at h; simp at h
        | some pr5 =>
          obtain ⟨c5, r5⟩ := pr5
          rw [h5] at h
          simp only [Option.some.injEq] at h
          rw [← h]
          simp [hc1]

theorem mTitleName_ne_nil (lit : List Char) (optDot : Bool) (s sp : List Char)
    (hl : lit ≠ []) (h : mTitleName lit optDot s = some sp) : sp ≠ [] := by
  unfold mTitleName at h
  cases hm : mLitCI lit s with
  | none => rw [hm] at h; simp at h
  | some pr =>
    obtain ⟨c1, r1⟩ := pr
    rw [hm] at h
    dsimp only at h
    have hc1 : c1 ≠ [] := mLitCI_ne_nil lit s c1 r1 hl hm
    rcases h2 : (if optDot = true then mOptDot r1 else ([], r1)) with ⟨c2, r2⟩
    rw [h2] at h
    dsimp only at h
    cases h3 : mTakeWhile1 isSpaceCh r2 with
    | none => rw [h3] at h; simp at h
    | some pr3 =>
      obtain ⟨c3, r3⟩ := pr3
      rw [h3] at h
      dsimp only at h
      cases r3 with
      | nil => simp at h
      | cons c cs =>
        dsimp only at h
        split at h
        · cases h4 : mTakeWhile1 isAlphaCh cs with
          | none => rw [h4] at h; simp at h
          | some pr4 =>
            obtain ⟨c4, r4⟩ := pr4
            rw [h4] at h
            simp only [Option.some.injEq] at h
            rw [← h]
            simp [hc1]
        · simp at h

theorem mTok_ne_nil (lit : List Char) (s sp : List Char)
    (hl : lit ≠ []) (h : mTok lit s = some sp) : sp ≠ [] := by
  unfold mTok at h
  cases hm : mLitCI lit s with
  | none => rw [hm] at h; simp at h
  | some pr =>
    obtain ⟨c1, r1⟩ := pr
    rw [hm] at h
    simp only [Option.some.injEq] at h
    rw [← h]
    exact mLitCI_ne_nil lit s c1 r1 hl hm

theorem mManagers_ne_nil (s sp : List Char) (h : mManagers s = some sp) : sp ≠ [] := by
  unfold mManagers at h
  cases hm : mLitCI "Manager".data s with
  | none => rw [hm] at h; simp at h
  | some pr =>
    obtain ⟨c1, r1⟩ := pr
    rw [hm] at h
    dsimp only at h
    have hc1 : c1 ≠ [] := mLitCI_ne_nil _ s c1 r1 (by decide) hm
    cases r1 with
    | nil =>
      simp only [Option.some.injEq] at h
      rw [← h]; exact hc1
    | cons c cs =>
      dsimp only at h
      split at h
      · simp only [Option.some.injEq] at h
        rw [← h]
        simp [hc1]
      · simp only [Option.some.injEq] at h
        rw [← h]; exact hc1

theorem searchSpan_some (m : List Char → Option (List Char)) :
    ∀ (s sp : List Char), searchSpan m s = some sp → ∃ t, m t = some sp := by
  intro s
  induction s with
  | nil =>
    intro sp h
    exact ⟨[], by simpa [searchSpan] using h⟩
  | cons c cs ih =>
    intro sp h
    unfold searchSpan at h
    cases hm : m (c :: cs) with
    | some g =>
      rw [hm] at h
      dsimp only at h
      exact ⟨c :: cs, by rw [hm]; exact h⟩
    | none =>
      rw [hm] at h
      dsimp only at h
      exact ih sp h

theorem findSpeakerIn_ne_nil :
    ∀ (ms : List (List Char → Option (List Char))),
      (∀ m ∈ ms, ∀ s sp, m s = some sp → sp ≠ []) →
      ∀ (line sp : List Char), findSpeakerIn ms line = some sp → sp ≠ [] := by
  intro ms
  induction ms with
  | nil => intro _ line sp h; simp [findSpeakerIn] at h
  | cons m rest ih =>
    intro hms line sp h
    unfold findSpeakerIn at h
    cases hs : searchSpan m line with
    | some g =>
      rw [hs] at h
      dsimp only at h
      obtain ⟨t, ht⟩ := searchSpan_some m line g hs
      have := hms m (List.mem_cons_self _ _) t g ht
      simp only [Option.some.injEq] at h
      rw [← h]; exact this
    | none =>
      rw [hs] at h
      dsimp only at h
      exact ih (fun m2 hm2 => hms m2 (List.mem_cons_of_mem _ hm2)) line sp h

theorem findSpeaker_ne_nil (line sp : List Char) (h : findSpeaker line = some sp) :
    sp ≠ [] := by
  refine findSpeakerIn_ne_nil speakerMatchers ?_ line sp h
  intro m hm
  simp only [speakerMatchers, List.mem_cons, List.not_mem_nil, or_false] at hm
  rcases hm with rfl | rfl | rfl | rfl | rfl | rfl | rfl | rfl | rfl | rfl | rfl | rfl | rfl | rfl | rfl | rfl | rfl | rfl | rfl
  · exact fun s sp => mLitSpacesDigits_ne_nil _ _ s sp (by decide)
  · exact fun s sp => mNguoiNoi_ne_nil s sp
  · exact fun s sp => mLitSpacesDigits_ne_nil _ _ s sp (by decide)
  · exact fun s sp => mLitSpacesDigits_ne_nil _ _ s sp (by decide)
  · exact fun s sp => mLitSpacesDigits_ne_nil _ _ s sp (by decide)
  · exact fun s sp => mTitleName_ne_nil _ _ s sp (by decide)
  · exact fun s sp => mTitleName_ne_nil _ _ s sp (by decide)
  · exact fun s sp => mTitleName_ne_nil _ _ s sp (by decide)
  · exact fun s sp => mTitleName_ne_nil _ _ s sp (by decide)
  · exact fun s sp => mTitleName_ne_nil _ _ s sp (by decide)
  · exact fun s sp => mTitleName_ne_nil _ _ s sp (by decide)
  · exact fun s sp => mTitleName_ne_nil _ _ s sp (by decide)
  · exact fun s sp => mTitleName_ne_nil _ _ s sp (by decide)
  · exact fun s sp => mTok_ne_nil _ s sp (by decide)
  · exact fun s sp => mTok_ne_nil _ s sp (by decide)
  · exact fun s sp => mTok_ne_nil _ s sp (by decide)
  · exact fun s sp => mManagers_ne_nil s sp
  · exact fun s sp => mTok_ne_nil _ s sp (by decide)
  · exact fun s sp => mTok_ne_nil _ s sp (by decide)

theorem firstSome_some {α β : Type} (f : α → Option β) :
    ∀ (l : List α) (b : β), firstSome f l = some b → ∃ a ∈ l, f a = some b := by
  intro l
  induction l with
  | nil => intro b h; simp [firstSome] at h
  | cons x xs ih =>
    intro b h
    unfold firstSome at h
    cases hf : f x with
    | some y =>
      rw [hf] at h
      dsimp only at h
      exact ⟨x, List.mem_cons_self _ _, by rw [hf]; exact h⟩
    | none =>
      rw [hf] at h
      dsimp only at h
      obtain ⟨a, ha, hfa⟩ := ih b h
      exact ⟨a, List.mem_cons_of_mem _ ha, hfa⟩

theorem matchRoleKw_mem (s g : List Char) (h : matchRoleKw s = some g) : g ∈ roleAlt := by
  unfold matchRoleKw at h
  obtain ⟨a, ha, hfa⟩ := firstSome_some _ roleAlt g h
  cases hd : dropExact a s with
  | none => rw [hd] at hfa; simp at hfa
  | some r =>
    rw [hd] at hfa
    dsimp only at hfa
    cases ht : mTakeWhile1 isSpaceCh r with
    | none => rw [ht] at hfa; simp at hfa
    | some pr =>
      obtain ⟨x, r2⟩ := pr
      rw [ht] at hfa
      dsimp only at hfa
      split at hfa
      · simp only [Option.some.injEq] at hfa
        rw [← hfa]; exact ha
      · simp at hfa

theorem roleAlt_elem_ne_nil : ∀ a ∈ roleAlt, a ≠ [] := by decide

theorem matchNameKw_ne_nil (s g : List Char) (h : matchNameKw s = some g) : g ≠ [] := by
  cases s with
  | nil => simp [matchNameKw] at h
  | cons c cs =>
    unfold matchNameKw at h
    dsimp only at h
    split at h
    · cases h1 : mTakeWhile1 isLowerCh cs with
      | none => rw [h1] at h; simp at h
      | some pr =>
        obtain ⟨low, r1⟩ := pr
        rw [h1] at h
        dsimp only at h
        cases h2 : mTakeWhile1 isSpaceCh r1 with
        | none => rw [h2] at h; simp at h
        | some pr2 =>
          obtain ⟨x, r2⟩ := pr2
          rw [h2] at h
          dsimp only at h
          split at h
          · simp only [Option.some.injEq] at h
            rw [← h]; simp
          · simp at h
    · simp at h

theorem matchNameKwVerb_ne_nil (s g : List Char) (h : matchNameKwVerb s = some g) :
    g ≠ [] := by
  cases s with
  | nil => simp [matchNameKwVerb] at h
  | cons c cs =>
    unfold matchNameKwVerb at h
    dsimp only at h
    split at h
    · cases h1 : mTakeWhile1 isLowerCh cs with
      | none => rw [h1] at h; simp at h
      | some pr =>
        obtain ⟨low, r1⟩ := pr
        rw [h1] at h
        dsimp only at h
        cases h2 : mTakeWhile1 isSpaceCh r1 with
        | none => rw [h2] at h; simp at h
        | some pr2 =>
          obtain ⟨x, r2⟩ := pr2
          rw [h2] at h
          dsimp only at h
          split at h
          · simp only [Option.some.injEq] at h
            rw [← h]; simp
          · simp at h
    · simp at h

theorem searchBW_some (m : List Char → Option (List Char)) :
    ∀ (s : List Char) (prevW : Bool) (g : List Char),
      searchBW m prevW s = some g → ∃ t, m t = some g := by
  intro s
  induction s with
  | nil => intro prevW g h; simp [searchBW] at h
  | cons c cs ih =>
    intro prevW g h
    unfold searchBW at h
    cases hc : (if (prevW != isWordCh c) = true then m (c :: cs) else none) with
    | some y =>
      rw [hc] at h
      dsimp only at h
      by_cases hb : (prevW != isWordCh c) = true
      · rw [if_pos hb] at hc
        exact ⟨c :: cs, by rw [hc]; exact h⟩
      · rw [if_neg hb] at hc
        simp at hc
    | none =>
      rw [hc] at h
      dsimp only at h
      exact ih (isWordCh c) g h

theorem screenSmart_some (r : Option (List Char)) (g : List Char)
    (h : screenSmart r = some g) : r = some g := by
  cases r with
  | none => simp [screenSmart] at h
  | some x =>
    unfold screenSmart at h
    dsimp only at h
    split at h
    · simp at h
    · simp only [Option.some.injEq] at h
      rw [h]

theorem detectSmart_ne_nil (s g : List Char) (h : detectSmart s = some g) : g ≠ [] := by
  unfold detectSmart at h
  cases h1 : screenSmart (matchRoleKw s) with
  | some g1 =>
    rw [h1] at h
    dsimp only at h
    simp only [Option.some.injEq] at h
    subst h
    exact roleAlt_elem_ne_nil _ (matchRoleKw_mem s g1 (screenSmart_some _ _ h1))
  | none =>
    rw [h1] at h
    dsimp only at h
    cases h2 : screenSmart (matchNameKw s) with
    | some g2 =>
      rw [h2] at h
      dsimp only at h
      simp only [Option.some.injEq] at h
      subst h
      exact matchNameKw_ne_nil s g2 (screenSmart_some _ _ h2)
    | none =>
      rw [h2] at h
      dsimp only at h
      cases h3 : screenSmart (searchBW matchRoleKw false s) with
      | some g3 =>
        rw [h3] at h
        dsimp only at h
        simp only [Option.some.injEq] at h
        subst h
        obtain ⟨t, ht⟩ := searchBW_some matchRoleKw s false g3 (screenSmart_some _ _ h3)
        exact roleAlt_elem_ne_nil _ (matchRoleKw_mem t g3 ht)
      | none =>
        rw [h3] at h
        dsimp only at h
        obtain ⟨t, ht⟩ := searchBW_some matchNameKwVerb s false g (screenSmart_some _ _ h)
        exact matchNameKwVerb_ne_nil t g ht

theorem lineLoopGo_wf :
    ∀ (lines : List (List Char)) (curSp curTx : List Char)
      (acc : List (List Char × List Char)),
      curSp ≠ [] → (∀ p ∈ acc, p.1 ≠ [] ∧ p.2 ≠ []) →
      ∀ p ∈ lineLoopGo lines curSp curTx acc, p.1 ≠ [] ∧ p.2 ≠ [] := by
  intro lines
  induction lines with
  | nil =>
    intro curSp curTx acc hsp hacc p hp
    unfold lineLoopGo at hp
    split at hp
    · rcases List.mem_append.mp hp with hm | hm
      · exact hacc p hm
      · rename_i hc
        rw [List.mem_singleton.mp hm]
        exact ⟨hsp, hc⟩
    · exact hacc p hp
  | cons line rest ih =>
    intro curSp curTx acc hsp hacc p hp
    unfold lineLoopGo at hp
    dsimp only at hp
    split at hp
    · exact ih curSp curTx acc hsp hacc p hp
    · rename_i hne
      cases hf : findSpeaker (stripL line) with
      | some sf =>
        rw [hf] at hp
        dsimp only at hp
        have hsf : sf ≠ [] := findSpeaker_ne_nil _ sf hf
        refine ih sf _ _ hsf ?_ p hp
        intro q hq
        split at hq
        · rcases List.mem_append.mp hq with hm | hm
          · exact hacc q hm
          · rename_i hc
            rw [List.mem_singleton.mp hm]
            exact ⟨hsp, hc⟩
        · exact hacc q hq
      | none =>
        rw [hf] at hp
        dsimp only at hp
        exact ih curSp _ acc hsp hacc p hp

theorem lineLoopGo_no_speaker :
    ∀ (lines : List (List Char)),
      (∀ line ∈ lines, stripL line = [] ∨ findSpeaker (stripL line) = none) →
      ∀ (curSp curTx : List Char) (acc : List (List Char × List Char)),
        ∃ r, lineLoopGo lines curSp curTx acc = acc ++ r ∧ r.length ≤ 1 := by
  intro lines
  induction lines with
  | nil =>
    intro _ curSp curTx acc
    unfold lineLoopGo
    split
    · exact ⟨[(curSp, stripL curTx)], rfl, by simp⟩
    · exact ⟨[], by simp, by simp⟩
  | cons line rest ih =>
    intro h curSp curTx acc
    have hline := h line (List.mem_cons_self _ _)
    have hrest := fun l hl => h l (List.mem_cons_of_mem _ hl)
    unfold lineLoopGo
    dsimp only
    split
    · exact ih hrest curSp curTx acc
    · rename_i hne
      rcases hline with h1 | h2
      · exact absurd h1 hne
      · rw [h2]
        dsimp only
        exact ih hrest curSp _ acc

theorem smartLoopGo_wf :
    ∀ (sents : List (List Char)) (curSp : Option (List Char)) (curTx : List Char)
      (acc : List (List Char × List Char)),
      (∀ d, curSp = some d → d ≠ []) →
      (∀ p ∈ acc, p.1 ≠ [] ∧ p.2 ≠ []) →
      ∀ p ∈ smartLoopGo sents curSp curTx acc, p.1 ≠ [] ∧ p.2 ≠ [] := by
  intro sents
  induction sents with
  | nil =>
    intro curSp curTx acc hsp hacc p hp
    unfold smartLoopGo at hp
    split at hp
    · rcases List.mem_append.mp hp with hm | hm
      · exact hacc p hm
      · rename_i hc
        rw [List.mem_singleton.mp hm]
        refine ⟨?_, hc⟩
        cases curSp with
        | none => simp [Option.getD, unknownSp]
        | some d => simpa [Option.getD] using hsp d rfl
    · exact hacc p hp
  | cons snt rest ih =>
    intro curSp curTx acc hsp hacc p hp
    unfold smartLoopGo at hp
    split at hp
    · exact ih curSp curTx acc hsp hacc p hp
    · dsimp only at hp
      split at hp
      · rename_i hcond
        refine ih (detectSmart snt) snt _ ?_ ?_ p hp
        · intro d hd
          exact detectSmart_ne_nil snt d hd
        · intro q hq
          split at hq
          · rcases List.mem_append.mp hq with hm | hm
            · exact hacc q hm
            · rename_i hc
              rw [List.mem_singleton.mp hm]
              refine ⟨?_, hc⟩
              cases curSp with
              | none => simp [Option.getD, unknownSp]
              | some d => simpa [Option.getD] using hsp d rfl
          · exact hacc q hq
      · exact ih curSp _ acc hsp hacc p hp

theorem smartLoopGo_no_detect :
    ∀ (sents : List (List Char)),
      (∀ s ∈ sents, detectSmart s = none) →
      ∀ (curTx : List Char) (acc : List (List Char × List Char)),
        ∃ r, smartLoopGo sents none curTx acc = acc ++ r ∧
          (r = [] ∨ ∃ x, r = [(unknownSp, x)]) := by
  intro sents
  induction sents with
  | nil =>
    intro _ curTx acc
    unfold smartLoopGo
    split
    · exact ⟨[(Option.getD none unknownSp, stripL curTx)], rfl, Or.inr ⟨stripL curTx, rfl⟩⟩
    · exact ⟨[], by simp, Or.inl rfl⟩
  | cons snt rest ih =>
    intro h curTx acc
    have hsnt := h snt (List.mem_cons_self _ _)
    have hrest := fun s hs => h s (List.mem_cons_of_mem _ hs)
    unfold smartLoopGo
    split
    · exact ih hrest curTx acc
    · rw [hsnt]
      simp only [Option.isSome_none, Bool.false_and, Bool.false_eq_true, if_false]
      exact ih hrest _ acc

theorem joinDotSp_ne_nil :
    ∀ (l : List (List Char)), l ≠ [] → (∀ x ∈ l, x ≠ []) → joinDotSp l ≠ [] := by
  intro l hl hx
  match l with
  | [x] => simpa [joinDotSp] using hx x (by simp)
  | x :: y :: rest => simp [joinDotSp]

theorem chunkGo_wf (k : Nat) :
    ∀ (fuel n : Nat) (rest : List (List Char)), 1 ≤ k →
      (∀ x ∈ rest, x ≠ []) →
      ∀ p ∈ chunkGo k n fuel rest, p.1 ≠ [] ∧ p.2 ≠ [] := by
  intro fuel
  induction fuel with
  | zero => intro n rest _ _ p hp; simp [chunkGo] at hp
  | succ f ih =>
    intro n rest hk hx p hp
    cases rest with
    | nil => simp [chunkGo] at hp
    | cons x xs =>
      unfold chunkGo at hp
      dsimp only at hp
      rcases List.mem_cons.mp hp with rfl | hmem
      · refine ⟨by simp, ?_⟩
        apply joinDotSp_ne_nil
        · cases k with
          | zero => omega
          | succ k2 => simp
        · intro y hy
          exact hx y (List.mem_of_mem_take hy)
      · exact ih n.succ ((x :: xs).drop k) hk
          (fun y hy => hx y (List.mem_of_mem_drop hy)) p hmem

theorem chunkGo_ne_nil (k n fuel : Nat) (rest : List (List Char))
    (hf : 1 ≤ fuel) (hr : rest ≠ []) : chunkGo k n fuel rest ≠ [] := by
  cases fuel with
  | zero => omega
  | succ f =>
    cases rest with
    | nil => exact absurd rfl hr
    | cons x xs => simp [chunkGo]

theorem dotSpace_ne_nil : ∀ (t : List Char), t ≠ [] → dotSpace t ≠ [] := by
  intro t ht
  rw [dotSpace.eq_def]
  split
  · exact absurd rfl ht
  · split <;> simp
  · simp

theorem dotSpace_removeWs_n :
    ∀ (n : Nat) (t : List Char), t.length ≤ n →
      removeWsL (dotSpace t) = removeWsL t := by
  intro n
  induction n with
  | zero =>
    intro t ht
    have h0 : t = [] := List.eq_nil_of_length_eq_zero (Nat.le_zero.mp ht)
    subst h0; rfl
  | succ n ih =>
    intro t ht
    rw [dotSpace.eq_def]
    split
    · rfl
    · rename_i c cs
      split
      · rename_i hup
        simp only [removeWsL, List.filter_cons]
        rw [show (!isSpaceCh '.') = true from rfl, show (!isSpaceCh ' ') = false from rfl]
        simp only [if_true, if_false]
        have hcs : removeWsL (dotSpace cs) = removeWsL cs := by
          apply ih
          simp only [List.length_cons] at ht
          omega
        simp only [removeWsL] at hcs
        by_cases hc : (!isSpaceCh c) = true
        · rw [if_pos hc, if_pos hc, hcs]
          simp
        · rw [if_neg hc, if_neg hc, hcs]
          simp
      · rename_i hup
        simp only [removeWsL, List.filter_cons]
        rw [show (!isSpaceCh '.') = true from rfl]
        simp only [if_true]
        have hcs : removeWsL (dotSpace (c :: cs)) = removeWsL (c :: cs) := by
          apply ih
          simp only [List.length_cons] at ht ⊢
          omega
        simp only [removeWsL, List.filter_cons] at hcs
        rw [hcs]
    · rename_i a c cs h2
      simp only [removeWsL, List.filter_cons]
      have hcs : removeWsL (dotSpace cs) = removeWsL cs := by
        apply ih
        simp only [List.length_cons] at ht
        omega
      simp only [removeWsL] at hcs
      by_cases hc : (!isSpaceCh c) = true
      · rw [if_pos hc, if_pos hc, hcs]
      · rw [if_neg hc, if_neg hc, hcs]

theorem dotSpace_removeWs (t : List Char) :
    removeWsL (dotSpace t) = removeWsL t :=
  dotSpace_removeWs_n t.length t (Nat.le_refl _)

theorem sentencesDot_ne_nil (t : List Char) : ∀ s ∈ sentencesDot t, s ≠ [] := by
  intro s hs
  unfold sentencesDot at hs
  have := List.of_mem_filter hs
  simpa using this

theorem diarizeWithPatterns_wf (t : List Char) (ht : t ≠ []) :
    diarizeWithPatterns t ≠ [] ∧
      ∀ p ∈ diarizeWithPatterns t, p.1 ≠ [] ∧ p.2 ≠ [] := by
  have hsmart_wf : ∀ p ∈ smartLoopGo (sentencesDot (dotSpace t)) none [] [],
      p.1 ≠ [] ∧ p.2 ≠ [] := by
    refine smartLoopGo_wf _ none [] [] ?_ ?_
    · intro d hd; exact absurd hd (by simp)
    · intro p hp; exact absurd hp (List.not_mem_nil p)
  have hline_wf : ∀ p ∈ lineLoopGo (splitOnCh '\n' (dotSpace t)) unknownSp [] [],
      p.1 ≠ [] ∧ p.2 ≠ [] := by
    refine lineLoopGo_wf _ unknownSp [] [] (by decide) ?_
    intro p hp; exact absurd hp (List.not_mem_nil p)
  constructor
  · show diarizeWithPatterns t ≠ []
    unfold diarizeWithPatterns
    rw [if_neg ht]
    dsimp only
    by_cases h1 : (decide ((lineLoopGo (splitOnCh '\n' (dotSpace t)) unknownSp [] []).length = 0)
        || decide ((lineLoopGo (splitOnCh '\n' (dotSpace t)) unknownSp [] []).length = 1)) = true
    · rw [if_pos h1]
      by_cases h2 : (List.filter (fun sg => decide (sg.1 ≠ unknownSp))
          (smartLoopGo (sentencesDot (dotSpace t)) none [] [])).length > 1
      · rw [if_pos h2, if_pos h2]
        intro hnil
        rw [hnil] at h2
        simp at h2
      · rw [if_neg h2]
        by_cases h3 : (smartLoopGo (sentencesDot (dotSpace t)) none [] []).length > 1
        · rw [if_pos h3]
          intro hnil
          rw [hnil] at h3
          simp at h3
        · rw [if_neg h3]
          by_cases h4 : (sentencesDot (dotSpace t)).length > 5
          · rw [if_pos h4]
            apply chunkGo_ne_nil
            · omega
            · intro hnil
              rw [hnil] at h4
              simp at h4
          · rw [if_neg h4]
            simp
    · rw [if_neg h1]
      intro hnil
      rw [hnil] at h1
      simp at h1
  · intro p hp
    unfold diarizeWithPatterns at hp
    rw [if_neg ht] at hp
    dsimp only at hp
    by_cases h1 : (decide ((lineLoopGo (splitOnCh '\n' (dotSpace t)) unknownSp [] []).length = 0)
        || decide ((lineLoopGo (splitOnCh '\n' (dotSpace t)) unknownSp [] []).length = 1)) = true
    · rw [if_pos h1] at hp
      by_cases h2 : (List.filter (fun sg => decide (sg.1 ≠ unknownSp))
          (smartLoopGo (sentencesDot (dotSpace t)) none [] [])).length > 1
      · rw [if_pos h2, if_pos h2] at hp
        exact hsmart_wf p (List.mem_of_mem_filter hp)
      · rw [if_neg h2] at hp
        by_cases h3 : (smartLoopGo (sentencesDot (dotSpace t)) none [] []).length > 1
        · rw [if_pos h3] at hp
          exact hsmart_wf p hp
        · rw [if_neg h3] at hp
          by_cases h4 : (sentencesDot (dotSpace t)).length > 5
          · rw [if_pos h4] at hp
            refine chunkGo_wf _ _ 0 _ ?_ (sentencesDot_ne_nil _) p hp
            omega
          · rw [if_neg h4] at hp
            rw [List.mem_singleton.mp hp]
            exact ⟨List.cons_ne_nil _ _, dotSpace_ne_nil t ht⟩
    · rw [if_neg h1] at hp
      exact hline_wf p hp

theorem diarize_ne_nil (llm : List Char → GenOutcome) (t : List Char) (ht : t ≠ []) :
    diarize llm t ≠ [] := by
  unfold diarize
  rw [if_neg ht]
  have hfb : (diarizeWithPatterns t).map (fun p => (Json.jstr p.1, Json.jstr p.2)) ≠ [] := by
    have := (diarizeWithPatterns_wf t ht).1
    simpa [List.map_eq_nil_iff] using this
  cases hl : llm (DIARIZATION_PROMPT ++ "\n\nMeeting Transcript:\n".data ++ t) with
  | exc e => exact hfb
  | ok response =>
    dsimp only
    split
    · exact hfb
    · split
      · rename_i items heq
        split
        · exact hfb
        · rename_i hne
          simpa [List.isEmpty_iff] using hne
      · exact hfb

/-- C9: the diarize entry point returns the empty list exactly on empty
input, for every backend oracle; and for every nonempty input the pattern
diarizer returns a nonempty list of segments each of which has a nonempty
speaker label and nonempty text. -/
theorem c9_diarizer_invariants :
    (∀ (llm : List Char → GenOutcome) (t : List Char), diarize llm t = [] ↔ t = [])
    ∧ (∀ t : List Char, t ≠ [] →
        diarizeWithPatterns t ≠ [] ∧
          ∀ p ∈ diarizeWithPatterns t, p.1 ≠ [] ∧ p.2 ≠ []) := by
  constructor
  · intro llm t
    constructor
    · intro h
      by_contra ht
      exact diarize_ne_nil llm t ht h
    · intro h
      subst h
      rfl
  · exact fun t ht => diarizeWithPatterns_wf t ht

/-- C9 witness: the theorem applied to a concrete failing oracle and a
concrete nonempty input. -/
theorem c9_diarizer_invariants_witness :
    diarize (fun _ => GenOutcome.exc ⟨ExcKind.otherError, "down".data⟩) "hello".data ≠ []
    ∧ diarizeWithPatterns "hello".data ≠ [] := by
  constructor
  · intro h
    have h2 := (c9_diarizer_invariants.1 (fun _ => GenOutcome.exc ⟨ExcKind.otherError, "down".data⟩) "hello".data).mp h
    simp at h2
  · exact (c9_diarizer_invariants.2 "hello".data (by decide)).1

/-- C4 counterexample: a six-sentence input in which no line and no
sentence matches any speaker pattern still yields two fabricated
"Speaker n" segments via the chunking pass, not one sentinel segment. -/
theorem c4_diarizer_fabricates_speakers :
    diarizeWithPatterns "a one. a two. a four. a five. a six. a nine.".data =
      [("Speaker 1".data, "a one. a two. a four".data),
       ("Speaker 2".data, "a five. a six. a nine".data)] := by decide

/-- C4 (amended): if the input is nonempty, no nonblank line of the
period-normalized text matches a speaker pattern, no sentence triggers
the smart speaker-change detector, and there are at most five sentences,
then the pattern diarizer returns exactly one segment, labeled
"Meeting Transcript", whose text is the period-normalized input; that
text equals the input up to whitespace. -/
theorem c4_single_segment_fallback (t : List Char) (ht : t ≠ [])
    (hlines : ∀ line ∈ splitOnCh '\n' (dotSpace t),
        stripL line = [] ∨ findSpeaker (stripL line) = none)
    (hsmart : ∀ s ∈ sentencesDot (dotSpace t), detectSmart s = none)
    (hlen : (sentencesDot (dotSpace t)).length ≤ 5) :
    diarizeWithPatterns t = [("Meeting Transcript".data, dotSpace t)] ∧
      removeWsL (dotSpace t) = removeWsL t := by
  refine ⟨?_, dotSpace_removeWs t⟩
  unfold diarizeWithPatterns
  rw [if_neg ht]
  dsimp only
  obtain ⟨r, hr, hrlen⟩ := lineLoopGo_no_speaker _ hlines unknownSp [] []
  rw [List.nil_append] at hr
  have hcond : (decide ((lineLoopGo (splitOnCh '\n' (dotSpace t)) unknownSp [] []).length = 0)
      || decide ((lineLoopGo (splitOnCh '\n' (dotSpace t)) unknownSp [] []).length = 1)) = true := by
    rw [hr]
    simp only [Bool.or_eq_true, decide_eq_true_eq]
    omega
  rw [if_pos hcond]
  obtain ⟨r2, hr2, hcase⟩ := smartLoopGo_no_detect _ hsmart [] []
  rw [List.nil_append] at hr2
  have hfilt : ¬ (List.filter (fun sg => decide (sg.1 ≠ unknownSp))
      (smartLoopGo (sentencesDot (dotSpace t)) none [] [])).length > 1 := by
    rw [hr2]
    rcases hcase with h | ⟨x, h⟩ <;> subst h <;> simp
  rw [if_neg hfilt]
  have hsm : ¬ (smartLoopGo (sentencesDot (dotSpace t)) none [] []).length > 1 := by
    rw [hr2]
    rcases hcase with h | ⟨x, h⟩ <;> subst h <;> simp
  rw [if_neg hsm]
  rw [if_neg (show ¬ (sentencesDot (dotSpace t)).length > 5 by omega)]

/-- C4 witness: the amended theorem applied at the concrete input
"hello world", with every hypothesis discharged by evaluation. -/
theorem c4_single_segment_fallback_witness :
    diarizeWithPatterns "hello world".data =
      [("Meeting Transcript".data, "hello world".data)] := by
  have h := c4_single_segment_fallback "hello world".data
    (by decide) (by decide) (by decide) (by decide)
  exact h.1.trans (by decide)


end MomV1
